import Mathlib

/-!
# Verification of the movement/collision core and visibility engine

This file gives a shallow embedding of the authoritative movement and
collision core of the hide-and-seek game (`src/shared/physics.js`,
`src/unnamed/part_007` = `src/shared/collision.js`, `src/unnamed/part_009`
tile-variant physics, `src/server/index.js` and `src/client/Level.ts`
tile levels, and `src/unnamed/part_002` = the client `Lights` module),
together with theorems about the embedded definitions.

Numeric conventions.  JavaScript numbers are IEEE-754 doubles; the
embedding models them as real numbers (exact arithmetic, no rounding).
Divisions in the collision module are modelled with Lean's total real
division (x / 0 = 0); the only paths on which a zero divisor can occur
there are degenerate (zero-length polygon edges).  The ray/segment
intersection and sight-polygon module, whose degenerate cases hinge on
IEEE special values, is instead modelled with an explicit `JSNum` type
carrying NaN and signed infinities with the IEEE propagation and
comparison rules (negative zero is identified with zero).  The JS
truncation `~~x` is `ToInt32`: truncation toward zero followed by a wrap
into `[-2^31, 2^31)`.
-/

open scoped Classical

/-! ## Shared constants (`src/unnamed/part_004`, `src/server/index.js`) -/

def GAME_WIDTH : ℝ := 1280
def GAME_HEIGHT : ℝ := 720
def TILE_SIZE : ℝ := 160
def PLAYER_SPEED : ℝ := 512
def PLAYER_COLLIDER_SIZE : ℝ := 64
def PLAYER_COLLIDER_OFFSET : ℝ := 16

/-- The IEEE-754 double `Number.MAX_VALUE` = (2 - 2^-52) * 2^1023. -/
def numberMaxValue : ℝ := 2 ^ 1024 - 2 ^ 971

/-! ## JavaScript numeric helpers -/

/-- JS truncation toward zero of a real number (the integer part of `ToInt32`
before wrapping). -/
noncomputable def jsTrunc (r : ℝ) : ℤ := if 0 ≤ r then ⌊r⌋ else -⌊-r⌋

/-- The JS `~~x` operator, i.e. `ToInt32`: truncate toward zero, then wrap
modulo 2^32 into `[-2^31, 2^31)`. -/
noncomputable def jsToInt32 (r : ℝ) : ℤ := Int.bmod (jsTrunc r) (2 ^ 32)

/-- JS `Math.sign` on real (finite) numbers. -/
noncomputable def jsSign (r : ℝ) : ℝ := if 0 < r then 1 else if r < 0 then -1 else 0

/-! ## Geometry primitives (`src/unnamed/part_007`, classes `Vector2`,
`Rectangle`, `Polygon`) -/

structure Vector2 where
  x : ℝ
  y : ℝ


namespace Vector2

noncomputable def length (v : Vector2) : ℝ := Real.sqrt (v.x * v.x + v.y * v.y)

def dot (v other : Vector2) : ℝ := v.x * other.x + v.y * other.y

def multiply (v : Vector2) (scalar : ℝ) : Vector2 := ⟨v.x * scalar, v.y * scalar⟩

def subtract (v other : Vector2) : Vector2 := ⟨v.x - other.x, v.y - other.y⟩

/-- `normalize` divides by the length; in JS a zero-length vector yields NaN
components, in this real-valued model it yields `⟨0, 0⟩` (x / 0 = 0). -/
noncomputable def normalize (v : Vector2) : Vector2 := ⟨v.x / v.length, v.y / v.length⟩

end Vector2

structure Rectangle where
  x : ℝ
  y : ℝ
  width : ℝ
  height : ℝ


/-- The four corners, clockwise from top-left (the `vertices` getter). -/
def Rectangle.vertices (r : Rectangle) : List Vector2 :=
  [⟨r.x, r.y⟩, ⟨r.x + r.width, r.y⟩, ⟨r.x + r.width, r.y + r.height⟩, ⟨r.x, r.y + r.height⟩]

structure Polygon where
  vertices : List Vector2


/-- The `aabb` getter.  JS initializes the running min/max with
`±Number.POSITIVE_INFINITY`; ℝ has no infinities, so the fold starts from
`±numberMaxValue` instead — for the nonempty polygons the game uses the
results coincide. -/
def Polygon.aabb (p : Polygon) : Rectangle :=
  let minX := p.vertices.foldl (fun m v => min m v.x) numberMaxValue
  let minY := p.vertices.foldl (fun m v => min m v.y) numberMaxValue
  let maxX := p.vertices.foldl (fun m v => max m v.x) (-numberMaxValue)
  let maxY := p.vertices.foldl (fun m v => max m v.y) (-numberMaxValue)
  ⟨minX, minY, maxX - minX, maxY - minY⟩

/-- The list of directed edges `(v_i, v_{i+1 mod n})` a loop over
`polygon.vertices[i]`, `polygon.vertices[(i + 1) % length]` visits. -/
def Polygon.edges (p : Polygon) : List (Vector2 × Vector2) :=
  p.vertices.zip (p.vertices.rotate 1)

/-! ## Narrow phase (`src/unnamed/part_007`) -/

/-- `pointInRectangle`: is a point inside an axis-aligned rectangle
(boundary included)? -/
noncomputable def pointInRectangle (point : Vector2) (rectangle : Rectangle) : Bool :=
  decide (point.x ≥ rectangle.x) && decide (point.x ≤ rectangle.x + rectangle.width) &&
  decide (point.y ≥ rectangle.y) && decide (point.y ≤ rectangle.y + rectangle.height)

/-- `linesIntersect`: parametric segment/segment intersection test.  JS
returns `null` (falsy) for parallel segments, which this Bool-valued model
renders as `false`. -/
noncomputable def linesIntersect (p1 v1 p2 v2 : Vector2) : Bool :=
  let denominator := v2.y * v1.x - v2.x * v1.y
  if denominator = 0 then false
  else
    let u := (v2.x * (p1.y - p2.y) - v2.y * (p1.x - p2.x)) / denominator
    let t := (v1.x * (p1.y - p2.y) - v1.y * (p1.x - p2.x)) / denominator
    decide (t ≥ 0) && decide (t ≤ 1) && decide (u ≥ 0) && decide (u ≤ 1)

/-- `detectCollision`: any polygon vertex inside the rectangle, or any
polygon edge intersecting any rectangle edge. -/
noncomputable def detectCollision (rectangle : Rectangle) (polygon : Polygon) : Bool :=
  polygon.vertices.any (fun vertex => pointInRectangle vertex rectangle) ||
  polygon.edges.any (fun e =>
    (rectangle.vertices.zip (rectangle.vertices.rotate 1)).any (fun f =>
      linesIntersect e.1 (e.2.subtract e.1) f.1 (f.2.subtract f.1)))

/-! ## MTV resolution (`resolveCollision`) -/

/-- The outward-rotated, normalized normal of a polygon edge. -/
noncomputable def edgeNormal (e : Vector2 × Vector2) : Vector2 :=
  let edge := e.2.subtract e.1
  (Vector2.mk (-edge.y) edge.x).normalize

/-- Fold of `Math.min` over the projections of a vertex list onto a normal,
starting from `Number.MAX_VALUE` as in the source. -/
def projectMin (normal : Vector2) (vs : List Vector2) : ℝ :=
  vs.foldl (fun m v => min m (normal.dot v)) numberMaxValue

/-- Fold of `Math.max` over the projections, starting from `-Number.MAX_VALUE`. -/
def projectMax (normal : Vector2) (vs : List Vector2) : ℝ :=
  vs.foldl (fun m v => max m (normal.dot v)) (-numberMaxValue)

/-- The overlap of the projection intervals of the rectangle vertices and the
polygon vertices on the normal axis of one polygon edge, exactly as computed
in the `resolveCollision` loop body. -/
noncomputable def edgeOverlap (rectVs polyVs : List Vector2) (e : Vector2 × Vector2) : ℝ :=
  let normal := edgeNormal e
  min (projectMax normal rectVs) (projectMax normal polyVs) -
    max (projectMin normal rectVs) (projectMin normal polyVs)

/-- The strict separation test `maxRect < minPoly || maxPoly < minRect` of
the `resolveCollision` loop body. -/
def edgeSeparated (rectVs polyVs : List Vector2) (e : Vector2 × Vector2)
    (normal : Vector2) : Prop :=
  projectMax normal rectVs < projectMin normal polyVs ∨
    projectMax normal polyVs < projectMin normal rectVs

/-- The edge loop of `resolveCollision`, with the early `return new
Vector2(0, 0)` on a separating axis. -/
noncomputable def resolveLoop (rectVs polyVs : List Vector2) :
    List (Vector2 × Vector2) → Vector2 → Vector2
  | [], mtv => mtv
  | e :: rest, mtv =>
    let normal := edgeNormal e
    if edgeSeparated rectVs polyVs e normal then ⟨0, 0⟩
    else
      let overlap := edgeOverlap rectVs polyVs e
      let normal2 := if projectMin normal rectVs < projectMin normal polyVs then
        Vector2.mk (-normal.x) (-normal.y) else normal
      if overlap < mtv.length then resolveLoop rectVs polyVs rest (normal2.multiply overlap)
      else resolveLoop rectVs polyVs rest mtv

/-- `resolveCollision`: minimum translation vector of a rectangle out of a
polygon, initialized with `(Number.MAX_VALUE, Number.MAX_VALUE)`. -/
noncomputable def resolveCollision (rectangle : Rectangle) (polygon : Polygon) : Vector2 :=
  resolveLoop rectangle.vertices polygon.vertices polygon.edges
    ⟨numberMaxValue, numberMaxValue⟩

/-! ## Broad phase (`checkAABBs`, `broadPhaseCollisionDetection`) -/

/-- `checkAABBs`: interval-overlap test of two axis-aligned boxes. -/
noncomputable def checkAABBs (a b : Rectangle) : Bool :=
  decide (a.x ≤ b.x + b.width) && decide (a.x + a.width ≥ b.x) &&
  decide (a.y ≤ b.y + b.height) && decide (a.y + a.height ≥ b.y)

structure Position where
  x : ℝ
  y : ℝ


/-- The collider AABB built from a player position in
`broadPhaseCollisionDetection`: note the source offsets `y` by
`PLAYER_COLLIDER_SIZE` (not by `PLAYER_COLLIDER_OFFSET`). -/
def colliderBox (pos : Position) : Rectangle :=
  ⟨pos.x + PLAYER_COLLIDER_OFFSET, pos.y + PLAYER_COLLIDER_SIZE,
    PLAYER_COLLIDER_SIZE, PLAYER_COLLIDER_SIZE⟩

/-- `broadPhaseCollisionDetection`: the source mutates `endPosition` in
place and returns it; the embedding folds the successive `endPosition.x +=
mtv.x` updates over the polygon list.  The `startAABB`/`endAABB` boxes are
computed once from the arguments and are not recomputed as `endPosition`
moves, exactly as in the source. -/
noncomputable def broadPhaseCollisionDetection (startPosition endPosition : Position)
    (polygons : List Polygon) : Position :=
  let startAABB := colliderBox startPosition
  let endAABB := colliderBox endPosition
  polygons.foldl (fun pos polygon =>
    if checkAABBs polygon.aabb startAABB || checkAABBs polygon.aabb endAABB then
      if detectCollision endAABB polygon then
        let mtv := resolveCollision endAABB polygon
        ⟨pos.x + mtv.x, pos.y + mtv.y⟩
      else pos
    else pos) endPosition

/-! ## Physics step, polygon variant (`src/shared/physics.js`) -/

structure Player where
  name : String
  role : String
  alive : Bool


structure PolyLevel where
  title : String
  width : ℝ
  height : ℝ
  startX : ℝ
  startY : ℝ
  polygons : List Polygon


structure StepResult where
  dir : Vector2
  x : ℝ
  y : ℝ


/-- Decoded x direction from the input bitmask:
`-(!!(input & INPUT_LEFT)) + +(!!(input & INPUT_RIGHT))`. -/
def inputDirX (input : ℕ) : ℤ :=
  (if input &&& 1 = 0 then 0 else -1) + (if input &&& 2 = 0 then 0 else 1)

/-- Decoded y direction from the input bitmask:
`-(!!(input & INPUT_UP)) + +(!!(input & INPUT_DOWN))`. -/
def inputDirY (input : ℕ) : ℤ :=
  (if input &&& 4 = 0 then 0 else -1) + (if input &&& 8 = 0 then 0 else 1)

/-- The direction vector after the diagonal normalization step of
`stepPhysics` (`if (+dir.x && +dir.y) dir /= |dir|`). -/
noncomputable def normDir (input : ℕ) : Vector2 :=
  let dx : ℝ := (inputDirX input : ℝ)
  let dy : ℝ := (inputDirY input : ℝ)
  if dx ≠ 0 ∧ dy ≠ 0 then
    let dirLength := Real.sqrt (dx * dx + dy * dy)
    ⟨dx / dirLength, dy / dirLength⟩
  else ⟨dx, dy⟩

/-- `stepPhysics` of `src/shared/physics.js`: decode and normalize the
input direction, scale by speed and dt, and resolve against the level's
polygons when the player is alive and polygons are present; otherwise apply
the displacement unconditionally. -/
noncomputable def stepPhysics (player : Player) (x y : ℝ) (input : ℕ)
    (level : Option PolyLevel) (dt : ℝ) : StepResult :=
  let dir := normDir input
  let dX := dir.x * PLAYER_SPEED * dt
  let dY := dir.y * PLAYER_SPEED * dt
  match level with
  | some lvl =>
    if player.alive ∧ lvl.polygons ≠ [] then
      let pos := broadPhaseCollisionDetection ⟨x, y⟩ ⟨x + dX, y + dY⟩ lvl.polygons
      ⟨dir, pos.x, pos.y⟩
    else ⟨dir, x + dX, y + dY⟩
  | none => ⟨dir, x + dX, y + dY⟩

/-! ## Tile levels (`src/server/index.js` `Level`, `src/client/Level.ts`) -/

structure TileLevel where
  title : String
  width : ℝ
  height : ℝ
  startX : ℝ
  startY : ℝ
  blocks : List Bool


/-- `rows = ~~(width / TILE_SIZE)` (the flattened grid's row stride). -/
noncomputable def TileLevel.rows (lvl : TileLevel) : ℤ :=
  jsToInt32 (lvl.width / TILE_SIZE)

/-- `Level.check`: `this.blocks[x + y * rows]`.  A JS out-of-bounds (or
negative) array index yields `undefined`, which is falsy; the Bool-valued
model renders it as `false`. -/
noncomputable def TileLevel.check (lvl : TileLevel) (x y : ℤ) : Bool :=
  let i := x + y * lvl.rows
  if 0 ≤ i then lvl.blocks.getD i.toNat false else false

/-- The tile-variant `stepPhysics` (`src/unnamed/part_009`, same code at
`src/server/index.js` lines 122-207): axis-separated four-corner tile
collision, horizontal then vertical. -/
noncomputable def tileStepPhysics (player : Player) (x y : ℝ) (input : ℕ)
    (level : Option TileLevel) (dt : ℝ) : StepResult :=
  let dir := normDir input
  let dX := dir.x * PLAYER_SPEED * dt
  let dY := dir.y * PLAYER_SPEED * dt
  match level with
  | some lvl =>
    if player.alive then
      let x1 :=
        if 0 < |dX| then
          let cx := x + PLAYER_COLLIDER_OFFSET + dX
          let cy := y + PLAYER_COLLIDER_SIZE
          let tlX := jsToInt32 (cx / TILE_SIZE)
          let tlY := jsToInt32 (cy / TILE_SIZE)
          let trX := jsToInt32 ((cx + PLAYER_COLLIDER_SIZE) / TILE_SIZE)
          let blY := jsToInt32 ((cy + PLAYER_COLLIDER_SIZE) / TILE_SIZE)
          let colliding := lvl.check tlX tlY || lvl.check trX tlY ||
            lvl.check tlX blY || lvl.check trX blY
          if colliding then
            if jsSign dX = 1 then
              (tlX : ℝ) * TILE_SIZE + PLAYER_COLLIDER_SIZE + PLAYER_COLLIDER_OFFSET - 1
            else (trX : ℝ) * TILE_SIZE - PLAYER_COLLIDER_OFFSET
          else x + dX
        else x
      let y1 :=
        if 0 < |dY| then
          let cx := x1 + PLAYER_COLLIDER_OFFSET
          let cy := y + PLAYER_COLLIDER_SIZE + dY
          let tlX := jsToInt32 (cx / TILE_SIZE)
          let tlY := jsToInt32 (cy / TILE_SIZE)
          let trX := jsToInt32 ((cx + PLAYER_COLLIDER_SIZE) / TILE_SIZE)
          let blY := jsToInt32 ((cy + PLAYER_COLLIDER_SIZE) / TILE_SIZE)
          let colliding := lvl.check tlX tlY || lvl.check trX tlY ||
            lvl.check tlX blY || lvl.check trX blY
          if colliding then
            if jsSign dY = 1 then (tlY : ℝ) * TILE_SIZE + PLAYER_COLLIDER_SIZE / 2 - 1
            else (blY : ℝ) * TILE_SIZE - PLAYER_COLLIDER_SIZE
          else y + dY
        else y
      ⟨dir, x1, y1⟩
    else ⟨dir, x + dX, y + dY⟩
  | none => ⟨dir, x + dX, y + dY⟩

/-! ## IEEE special values for the ray/segment module

The sight-polygon code divides by quantities that are exactly zero on
degenerate inputs; the observable behavior then depends on IEEE special
values (`k/0 = ±Infinity`, `0/0 = NaN`, and the always-false NaN
comparisons).  `JSNum` models a double as an exact real, a signed
infinity, or NaN, with the IEEE propagation rules (negative zero is
identified with zero, and rounding is ignored). -/

inductive JSNum where
  | num : ℝ → JSNum
  | posInf : JSNum
  | negInf : JSNum
  | nan : JSNum

namespace JSNum

noncomputable def neg : JSNum → JSNum
  | num x => num (-x)
  | posInf => negInf
  | negInf => posInf
  | nan => nan

noncomputable def add : JSNum → JSNum → JSNum
  | num x, num y => num (x + y)
  | num _, posInf => posInf
  | num _, negInf => negInf
  | posInf, num _ => posInf
  | negInf, num _ => negInf
  | posInf, posInf => posInf
  | negInf, negInf => negInf
  | posInf, negInf => nan
  | negInf, posInf => nan
  | nan, _ => nan
  | _, nan => nan

noncomputable def sub (a b : JSNum) : JSNum := add a (neg b)

noncomputable def mul : JSNum → JSNum → JSNum
  | num x, num y => num (x * y)
  | num x, posInf => if 0 < x then posInf else if x < 0 then negInf else nan
  | num x, negInf => if 0 < x then negInf else if x < 0 then posInf else nan
  | posInf, num y => if 0 < y then posInf else if y < 0 then negInf else nan
  | negInf, num y => if 0 < y then negInf else if y < 0 then posInf else nan
  | posInf, posInf => posInf
  | posInf, negInf => negInf
  | negInf, posInf => negInf
  | negInf, negInf => posInf
  | nan, _ => nan
  | _, nan => nan

/-- IEEE division with zeros unsigned: `x/0` is `NaN` for `x = 0` and
`±Infinity` by the sign of `x` otherwise. -/
noncomputable def div : JSNum → JSNum → JSNum
  | num x, num y =>
    if y = 0 then (if 0 < x then posInf else if x < 0 then negInf else nan)
    else num (x / y)
  | num _, posInf => num 0
  | num _, negInf => num 0
  | posInf, num y => if 0 ≤ y then posInf else negInf
  | negInf, num y => if 0 ≤ y then negInf else posInf
  | posInf, posInf => nan
  | posInf, negInf => nan
  | negInf, posInf => nan
  | negInf, negInf => nan
  | nan, _ => nan
  | _, nan => nan

/-- The JS `<` comparison; false whenever either side is NaN. -/
noncomputable def ltb : JSNum → JSNum → Bool
  | nan, _ => false
  | _, nan => false
  | num x, num y => decide (x < y)
  | num _, posInf => true
  | num _, negInf => false
  | posInf, _ => false
  | negInf, negInf => false
  | negInf, _ => true

/-- The JS `==` comparison; false whenever either side is NaN. -/
noncomputable def eqb : JSNum → JSNum → Bool
  | num x, num y => decide (x = y)
  | posInf, posInf => true
  | negInf, negInf => true
  | _, _ => false

end JSNum

/-! ## Ray/segment intersection and sight polygon (`src/unnamed/part_002`) -/

structure Pt where
  x : ℝ
  y : ℝ

structure Seg where
  a : Pt
  b : Pt

structure JSHit where
  x : JSNum
  y : JSNum
  param : JSNum

/-- `getIntersection(ray, segment)` from the sight-and-light module: unit
direction vectors equal means parallel (`null`); otherwise solve the
parametric equations for `T2` and `T1` and require `T1 ≥ 0`,
`0 ≤ T2 ≤ 1`.  The divisions producing `T2` and `T1` are unguarded in the
source, so they are modelled in `JSNum`. -/
noncomputable def getIntersection (ray segment : Seg) : Option JSHit :=
  let r_px := ray.a.x
  let r_py := ray.a.y
  let r_dx := ray.b.x - ray.a.x
  let r_dy := ray.b.y - ray.a.y
  let s_px := segment.a.x
  let s_py := segment.a.y
  let s_dx := segment.b.x - segment.a.x
  let s_dy := segment.b.y - segment.a.y
  let r_mag := Real.sqrt (r_dx * r_dx + r_dy * r_dy)
  let s_mag := Real.sqrt (s_dx * s_dx + s_dy * s_dy)
  if ((JSNum.num r_dx).div (JSNum.num r_mag)).eqb ((JSNum.num s_dx).div (JSNum.num s_mag)) &&
      ((JSNum.num r_dy).div (JSNum.num r_mag)).eqb ((JSNum.num s_dy).div (JSNum.num s_mag)) then
    none
  else
    let T2 := (JSNum.num (r_dx * (s_py - r_py) + r_dy * (r_px - s_px))).div
      (JSNum.num (s_dx * r_dy - s_dy * r_dx))
    let T1 := (((JSNum.num s_px).add ((JSNum.num s_dx).mul T2)).sub (JSNum.num r_px)).div
      (JSNum.num r_dx)
    if T1.ltb (JSNum.num 0) then none
    else if T2.ltb (JSNum.num 0) || (JSNum.num 1).ltb T2 then none
    else some ⟨(JSNum.num r_px).add ((JSNum.num r_dx).mul T1),
      (JSNum.num r_py).add ((JSNum.num r_dy).mul T1), T1⟩

/-- JS `Math.atan2(y, x)`, i.e. the principal argument in `(-π, π]`. -/
noncomputable def atan2 (y x : ℝ) : ℝ := Complex.arg ⟨x, y⟩

/-- One vertex of the sight polygon: an intersection point tagged with the
angle of the ray that produced it. -/
structure SightVertex where
  x : JSNum
  y : JSNum
  param : JSNum
  angle : ℝ

/-- The four viewport border segments, pushed in source order: top, right,
bottom, left. -/
def borderSegments (xView yView : ℝ) : List Seg :=
  [⟨⟨xView, yView⟩, ⟨xView + GAME_WIDTH, yView⟩⟩,
   ⟨⟨xView + GAME_WIDTH, yView⟩, ⟨xView + GAME_WIDTH, yView + GAME_HEIGHT⟩⟩,
   ⟨⟨xView + GAME_WIDTH, yView + GAME_HEIGHT⟩, ⟨xView, yView + GAME_HEIGHT⟩⟩,
   ⟨⟨xView, yView + GAME_HEIGHT⟩, ⟨xView, yView⟩⟩]

/-- The endpoint list the source builds by pushing `segment.a` and
`segment.b` for every segment (a JS `Set` of fresh objects never
deduplicates, so this is a plain list). -/
def segmentPoints (segs : List Seg) : List Pt :=
  segs.flatMap (fun s => [s.a, s.b])

/-- Insertion into the JS `Set<number>` of angles: append if not already
present (JS Sets iterate in insertion order and deduplicate numbers). -/
noncomputable def insertAngle (l : List ℝ) (a : ℝ) : List ℝ :=
  if a ∈ l then l else l ++ [a]

/-- The registered ray angles: for every endpoint, its angle from the
origin and the two `±0.00001` perturbations, in source insertion order. -/
noncomputable def collectAngles (pX pY : ℝ) (pts : List Pt) : List ℝ :=
  pts.foldl (fun acc pt =>
    let angle := atan2 (pt.y - pY) (pt.x - pX)
    insertAngle (insertAngle (insertAngle acc (angle - 0.00001)) angle) (angle + 0.00001)) []

/-- The inner loop of the per-angle cast: keep the intersection with the
smallest `param` (`if (!closestIntersect || intersect.param <
closestIntersect.param) closestIntersect = intersect`). -/
noncomputable def closestHit (ray : Seg) (segs : List Seg) : Option JSHit :=
  segs.foldl (fun acc s =>
    match getIntersection ray s with
    | none => acc
    | some i =>
      match acc with
      | none => some i
      | some c => if i.param.ltb c.param then some i else acc) none

/-- Cast a unit ray from the origin at a given angle and keep the nearest
(smallest-`param`) intersection with the segments, tagging it with the
angle; `none` when no segment intersects. -/
noncomputable def castRay (pX pY : ℝ) (segs : List Seg) (angle : ℝ) : Option SightVertex :=
  let dx := Real.cos angle
  let dy := Real.sin angle
  let ray : Seg := ⟨⟨pX, pY⟩, ⟨pX + dx, pY + dy⟩⟩
  (closestHit ray segs).map (fun h => ⟨h.x, h.y, h.param, angle⟩)

/-- `getSightPolygon(pX, pY, xView, yView, level)`: occluding segments are
the four viewport borders (the polygon-geometry block is commented out in
the source, so `level` is unused); angles come from the border endpoints;
one nearest hit per angle; result sorted by ascending angle. -/
noncomputable def getSightPolygon (pX pY xView yView : ℝ) (level : TileLevel) :
    List SightVertex :=
  let segments := borderSegments xView yView
  let points := segmentPoints segments
  let angles := collectAngles pX pY points
  let intersects := angles.filterMap (castRay pX pY segments)
  intersects.mergeSort (fun u v => decide (u.angle ≤ v.angle))

/-! ## Concrete instances used by witnesses and counterexamples -/

def hidePlayer : Player := ⟨"alice", "hide", true⟩

def seekPlayer : Player := ⟨"bob", "seek", true⟩

def deadPlayer : Player := ⟨"carol", "spectate", false⟩

/-- A 4x4 tile level (width 640, tile size 160) whose only occupied tile is
(col 1, row 1), i.e. flat index 1 + 1*4 = 5. -/
def lvlC1 : TileLevel :=
  ⟨"test", 640, 640, 0, 0,
    [false, false, false, false,
     false, true, false, false,
     false, false, false, false,
     false, false, false, false]⟩

/-- A 4x4 tile level whose only occupied tile is (col 0, row 1), i.e. flat
index 0 + 1*4 = 4. -/
def lvlC5 : TileLevel :=
  ⟨"test", 640, 640, 0, 0,
    [false, false, false, false,
     true, false, false, false,
     false, false, false, false,
     false, false, false, false]⟩

/-- An all-empty 4x4 tile level. -/
def lvlEmpty : TileLevel :=
  ⟨"lobby", 640, 640, 0, 0, List.replicate 16 false⟩

def rectC3 : Rectangle := ⟨0, 0, 1, 1⟩

/-- A triangle far away from `rectC3`. -/
def polyC3 : Polygon := Polygon.mk [⟨10, 10⟩, ⟨11, 10⟩, ⟨10, 11⟩]

/-- A single-vertex polygon far from the origin (its AABB is the point
(1000, 1000)). -/
def polyFar : Polygon := Polygon.mk [⟨1000, 1000⟩]

def lvlPoly : PolyLevel := ⟨"play", 2000, 2000, 0, 0, [polyFar]⟩

/-- The four corners of the viewport rectangle, in border order. -/
def cornersOf (xView yView : ℝ) : List Pt :=
  [⟨xView, yView⟩, ⟨xView + GAME_WIDTH, yView⟩,
   ⟨xView + GAME_WIDTH, yView + GAME_HEIGHT⟩, ⟨xView, yView + GAME_HEIGHT⟩]

/-- A point lies on the boundary of the viewport rectangle. -/
def onViewportBoundary (xView yView x y : ℝ) : Prop :=
  (y = yView ∧ xView ≤ x ∧ x ≤ xView + GAME_WIDTH) ∨
  (y = yView + GAME_HEIGHT ∧ xView ≤ x ∧ x ≤ xView + GAME_WIDTH) ∨
  (x = xView ∧ yView ≤ y ∧ y ≤ yView + GAME_HEIGHT) ∨
  (x = xView + GAME_WIDTH ∧ yView ≤ y ∧ y ≤ yView + GAME_HEIGHT)

/-- A strictly-inside origin x-coordinate chosen so that the bottom-right
corner's angle is exactly `π/2 - 0.00001`: its `+0.00001` perturbation is
then an exactly vertical ray. -/
noncomputable def pXC8 : ℝ := 1280 - 360 * Real.tan 0.00001

/-! # Theorems -/

/-! ## Pass-through of the polygon-variant physics step -/

/-- The pass-through branch of `stepPhysics`: when the player is not alive
or no polygon geometry is present, the displacement is applied directly. -/
theorem stepPhysics_pass (p : Player) (x y : ℝ) (input : ℕ)
    (level : Option PolyLevel) (dt : ℝ)
    (h : ∀ lvl, level = some lvl → ¬(p.alive = true ∧ lvl.polygons ≠ [])) :
    stepPhysics p x y input level dt =
      ⟨normDir input, x + (normDir input).x * PLAYER_SPEED * dt,
        y + (normDir input).y * PLAYER_SPEED * dt⟩ := by
  unfold stepPhysics
  cases level with
  | none => rfl
  | some lvl =>
    dsimp only
    rw [if_neg (h lvl rfl)]

/-- C6: for every position, input bitmask and dt, if the player is not
alive or no level geometry is present, `stepPhysics` applies the computed
displacement unconditionally (it is a total function, so it never
throws). -/
theorem c6_dead_passthrough (p : Player) (x y : ℝ) (input : ℕ)
    (level : Option PolyLevel) (dt : ℝ)
    (h : ∀ lvl, level = some lvl → ¬(p.alive = true ∧ lvl.polygons ≠ [])) :
    stepPhysics p x y input level dt =
      ⟨normDir input, x + (normDir input).x * PLAYER_SPEED * dt,
        y + (normDir input).y * PLAYER_SPEED * dt⟩ :=
  stepPhysics_pass p x y input level dt h

/-- Witness for C6 at a concrete input: a dead player on a polygon level
with geometry present passes straight through. -/
theorem c6_dead_passthrough_witness :
    (∀ lvl, (some lvlPoly : Option PolyLevel) = some lvl →
      ¬(deadPlayer.alive = true ∧ lvl.polygons ≠ [])) ∧
    stepPhysics deadPlayer 3 4 2 (some lvlPoly) 1 =
      ⟨normDir 2, 3 + (normDir 2).x * PLAYER_SPEED * 1,
        4 + (normDir 2).y * PLAYER_SPEED * 1⟩ := by
  refine ⟨?_, ?_⟩
  · intro lvl hl
    cases hl
    simp [deadPlayer]
  · exact c6_dead_passthrough deadPlayer 3 4 2 (some lvlPoly) 1
      (by intro lvl hl; cases hl; simp [deadPlayer])

/-! ## C9: determinism of the physics step -/

/-- C9: `stepPhysics` is deterministic and reads nothing from the player
record except the alive flag: two players with equal alive flags and equal
position, input, level and dt produce identical direction vectors and
identical corrected positions. -/
theorem c9_deterministic (p q : Player) (x y : ℝ) (input : ℕ)
    (level : Option PolyLevel) (dt : ℝ) (h : p.alive = q.alive) :
    stepPhysics p x y input level dt = stepPhysics q x y input level dt := by
  unfold stepPhysics
  cases level with
  | none => rfl
  | some lvl =>
    dsimp only
    rw [h]

/-- Witness for C9 at a concrete input: two distinct player records with
the same alive flag step identically. -/
theorem c9_deterministic_witness :
    hidePlayer.alive = seekPlayer.alive ∧
    stepPhysics hidePlayer 3 4 5 (some lvlPoly) 1 =
      stepPhysics seekPlayer 3 4 5 (some lvlPoly) 1 :=
  ⟨rfl, c9_deterministic hidePlayer seekPlayer 3 4 5 (some lvlPoly) 1 rfl⟩

/-! ## C2: diagonal speed normalization -/

theorem inputDirX_cases (input : ℕ) :
    inputDirX input = -1 ∨ inputDirX input = 0 ∨ inputDirX input = 1 := by
  unfold inputDirX
  split <;> split <;> norm_num

theorem inputDirY_cases (input : ℕ) :
    inputDirY input = -1 ∨ inputDirY input = 0 ∨ inputDirY input = 1 := by
  unfold inputDirY
  split <;> split <;> norm_num

theorem normDir_diag_sq (input : ℕ) (hx : inputDirX input ≠ 0)
    (hy : inputDirY input ≠ 0) :
    (normDir input).x ^ 2 + (normDir input).y ^ 2 = 1 := by
  have hdx : ((inputDirX input : ℝ)) ≠ 0 := Int.cast_ne_zero.mpr hx
  have hdy : ((inputDirY input : ℝ)) ≠ 0 := Int.cast_ne_zero.mpr hy
  have hx2 : ((inputDirX input : ℝ)) ^ 2 = 1 := by
    rcases inputDirX_cases input with h | h | h
    · rw [h]; norm_num
    · exact absurd h hx
    · rw [h]; norm_num
  have hy2 : ((inputDirY input : ℝ)) ^ 2 = 1 := by
    rcases inputDirY_cases input with h | h | h
    · rw [h]; norm_num
    · exact absurd h hy
    · rw [h]; norm_num
  have hsum : (inputDirX input : ℝ) * (inputDirX input : ℝ) +
      (inputDirY input : ℝ) * (inputDirY input : ℝ) = 2 := by
    have := hx2
    have := hy2
    nlinarith [hx2, hy2]
  unfold normDir
  dsimp only
  rw [if_pos ⟨hdx, hdy⟩]
  rw [hsum, div_pow, div_pow, Real.sq_sqrt (by norm_num : (0:ℝ) ≤ 2)]
  rw [div_add_div_same, hx2, hy2]
  norm_num

theorem normDir_single (input : ℕ)
    (h : ¬(((inputDirX input : ℝ)) ≠ 0 ∧ ((inputDirY input : ℝ)) ≠ 0)) :
    normDir input = ⟨(inputDirX input : ℝ), (inputDirY input : ℝ)⟩ := by
  unfold normDir
  dsimp only
  rw [if_neg h]

/-- C2: with both decoded axes nonzero and dt ≥ 0, the displacement
applied by `stepPhysics` (observable as the change in (x, y) in the
pass-through case) has Euclidean magnitude `PLAYER_SPEED * dt`, equal to
the displacement magnitude of any single-axis input at the same speed and
dt — never √2 times larger. -/
theorem c2_diagonal_normalization (p : Player) (x y : ℝ) (input : ℕ)
    (level : Option PolyLevel) (dt : ℝ)
    (hpass : ∀ lvl, level = some lvl → ¬(p.alive = true ∧ lvl.polygons ≠ []))
    (hdt : 0 ≤ dt) (hx : inputDirX input ≠ 0) (hy : inputDirY input ≠ 0) :
    Real.sqrt (((stepPhysics p x y input level dt).x - x) ^ 2 +
        ((stepPhysics p x y input level dt).y - y) ^ 2) = PLAYER_SPEED * dt ∧
    ∀ input2 : ℕ,
      (inputDirX input2 = 0 ∧ inputDirY input2 ≠ 0) ∨
        (inputDirX input2 ≠ 0 ∧ inputDirY input2 = 0) →
      Real.sqrt (((stepPhysics p x y input2 level dt).x - x) ^ 2 +
        ((stepPhysics p x y input2 level dt).y - y) ^ 2) = PLAYER_SPEED * dt := by
  have hspeed : (0:ℝ) ≤ PLAYER_SPEED * dt := by
    have : (0:ℝ) ≤ PLAYER_SPEED := by norm_num [PLAYER_SPEED]
    exact mul_nonneg this hdt
  have key : ∀ inp : ℕ, (normDir inp).x ^ 2 + (normDir inp).y ^ 2 = 1 →
      Real.sqrt (((stepPhysics p x y inp level dt).x - x) ^ 2 +
        ((stepPhysics p x y inp level dt).y - y) ^ 2) = PLAYER_SPEED * dt := by
    intro inp hsq
    rw [stepPhysics_pass p x y inp level dt hpass]
    have harg : (x + (normDir inp).x * PLAYER_SPEED * dt - x) ^ 2 +
        (y + (normDir inp).y * PLAYER_SPEED * dt - y) ^ 2 =
        (PLAYER_SPEED * dt) ^ 2 * ((normDir inp).x ^ 2 + (normDir inp).y ^ 2) := by
      ring
    simp only
    rw [harg, hsq, mul_one, Real.sqrt_sq hspeed]
  refine ⟨key input (normDir_diag_sq input hx hy), ?_⟩
  intro input2 hsingle
  apply key input2
  have hnot : ¬(((inputDirX input2 : ℝ)) ≠ 0 ∧ ((inputDirY input2 : ℝ)) ≠ 0) := by
    rcases hsingle with ⟨h1, _⟩ | ⟨_, h2⟩
    · intro hc
      exact hc.1 (by exact_mod_cast congrArg (Int.cast : ℤ → ℝ) h1)
    · intro hc
      exact hc.2 (by exact_mod_cast congrArg (Int.cast : ℤ → ℝ) h2)
  rw [normDir_single input2 hnot]
  rcases hsingle with ⟨h1, h2⟩ | ⟨h1, h2⟩
  · have h2sq : ((inputDirY input2 : ℝ)) ^ 2 = 1 := by
      rcases inputDirY_cases input2 with h | h | h
      · rw [h]; norm_num
      · exact absurd h h2
      · rw [h]; norm_num
    rw [h1]
    push_cast
    rw [h2sq]
    norm_num
  · have h1sq : ((inputDirX input2 : ℝ)) ^ 2 = 1 := by
      rcases inputDirX_cases input2 with h | h | h
      · rw [h]; norm_num
      · exact absurd h h1
      · rw [h]; norm_num
    rw [h2]
    push_cast
    rw [h1sq]
    norm_num

/-- Witness for C2 at a concrete input: input 10 = right + down, dead
player, dt = 1. -/
theorem c2_diagonal_normalization_witness :
    inputDirX 10 ≠ 0 ∧ inputDirY 10 ≠ 0 ∧
    Real.sqrt (((stepPhysics deadPlayer 0 0 10 none 1).x - 0) ^ 2 +
      ((stepPhysics deadPlayer 0 0 10 none 1).y - 0) ^ 2) = PLAYER_SPEED * 1 :=
  ⟨by decide, by decide,
    (c2_diagonal_normalization deadPlayer 0 0 10 none 1
      (by intro lvl hl; cases hl) (by norm_num) (by decide) (by decide)).1⟩

/-! ## C10: broad-phase identity when every polygon is rejected -/

theorem foldl_fixed {α β : Type _} (f : β → α → β) (l : List α) (b : β)
    (h : ∀ a ∈ l, ∀ acc, f acc a = acc) : l.foldl f b = b := by
  induction l generalizing b with
  | nil => rfl
  | cons a rest ih =>
    rw [List.foldl_cons, h a (List.mem_cons_self a rest)]
    exact ih b (fun a' ha' acc => h a' (List.mem_cons_of_mem a ha') acc)

/-- C10: `broadPhaseCollisionDetection` returns the caller's end-position
record (mutated in place in the source, modelled as the folded update of
the argument); in particular when every polygon is rejected by the broad
phase or by the narrow phase, the returned position equals the proposed
end position unchanged. -/
theorem c10_broadphase_identity (startPosition endPosition : Position)
    (polygons : List Polygon)
    (h : ∀ polygon ∈ polygons,
      (checkAABBs polygon.aabb (colliderBox startPosition) ||
        checkAABBs polygon.aabb (colliderBox endPosition)) = false ∨
      detectCollision (colliderBox endPosition) polygon = false) :
    broadPhaseCollisionDetection startPosition endPosition polygons = endPosition := by
  unfold broadPhaseCollisionDetection
  dsimp only
  apply foldl_fixed
  intro polygon hmem acc
  rcases h polygon hmem with hb | hn
  · simp [hb]
  · simp [hn]

/-- Witness for C10 at a concrete input: a faraway polygon is rejected by
the broad phase and the end position is returned unchanged. -/
theorem c10_broadphase_identity_witness :
    (∀ polygon ∈ [polyFar],
      (checkAABBs polygon.aabb (colliderBox ⟨0, 0⟩) ||
        checkAABBs polygon.aabb (colliderBox ⟨10, 0⟩)) = false ∨
      detectCollision (colliderBox ⟨10, 0⟩) polygon = false) ∧
    broadPhaseCollisionDetection ⟨0, 0⟩ ⟨10, 0⟩ [polyFar] = ⟨10, 0⟩ := by
  have hyp : ∀ polygon ∈ [polyFar],
      (checkAABBs polygon.aabb (colliderBox ⟨0, 0⟩) ||
        checkAABBs polygon.aabb (colliderBox ⟨10, 0⟩)) = false ∨
      detectCollision (colliderBox ⟨10, 0⟩) polygon = false := by
    intro polygon hmem
    rw [List.mem_singleton] at hmem
    subst hmem
    left
    rw [Bool.or_eq_false_iff]
    constructor
    · unfold checkAABBs polyFar Polygon.aabb colliderBox
      dsimp only
      rw [Bool.and_eq_false_iff, Bool.and_eq_false_iff, Bool.and_eq_false_iff]
      left; left; left
      rw [decide_eq_false_iff_not]
      simp only [List.foldl_cons, List.foldl_nil]
      rw [min_eq_right (by norm_num [numberMaxValue] : (1000:ℝ) ≤ numberMaxValue)]
      norm_num [PLAYER_COLLIDER_OFFSET, PLAYER_COLLIDER_SIZE]
    · unfold checkAABBs polyFar Polygon.aabb colliderBox
      dsimp only
      rw [Bool.and_eq_false_iff, Bool.and_eq_false_iff, Bool.and_eq_false_iff]
      left; left; left
      rw [decide_eq_false_iff_not]
      simp only [List.foldl_cons, List.foldl_nil]
      rw [min_eq_right (by norm_num [numberMaxValue] : (1000:ℝ) ≤ numberMaxValue)]
      norm_num [PLAYER_COLLIDER_OFFSET, PLAYER_COLLIDER_SIZE]
  exact ⟨hyp, c10_broadphase_identity ⟨0, 0⟩ ⟨10, 0⟩ [polyFar] hyp⟩

/-! ## Tile-level helper evaluations -/

theorem jsToInt32_small (r : ℝ) (h0 : 0 ≤ r) (h1 : r < 2 ^ 31) :
    jsToInt32 r = ⌊r⌋ := by
  unfold jsToInt32 jsTrunc
  rw [if_pos h0]
  have hf0 : 0 ≤ ⌊r⌋ := Int.floor_nonneg.mpr h0
  have hf1 : ⌊r⌋ < 2 ^ 31 := by
    rw [Int.floor_lt]
    exact h1.trans_le (by norm_num)
  have hf2 : ⌊r⌋ < ((2 ^ 32 : ℕ) : ℤ) := by
    refine hf1.trans ?_
    norm_num
  unfold Int.bmod
  rw [Int.emod_eq_of_lt hf0 hf2]
  rw [if_pos]
  have : (((2 ^ 32 + 1 : ℕ) / 2 : ℕ) : ℤ) = 2 ^ 31 := by norm_num
  omega

theorem rows_of_width_640 (lvl : TileLevel) (h : lvl.width = 640) :
    lvl.rows = 4 := by
  unfold TileLevel.rows
  rw [h, show (640 : ℝ) / TILE_SIZE = 4 by norm_num [TILE_SIZE],
    jsToInt32_small 4 (by norm_num) (by norm_num)]
  norm_num

/-! ## C5: out-of-range tile lookup -/

/-- C5 counterexample: on a 4x4 grid with tile (0, 1) occupied, the
out-of-range query `check(4, 0)` (col 4 ≥ rows = 4) aliases to flat index
4 + 0*4 = 4 — the occupied tile of the next row — and returns `true`,
not a falsy value. -/
theorem c5_counterexample : lvlC5.rows = 4 ∧ lvlC5.check 4 0 = true := by
  have hr : lvlC5.rows = 4 := rows_of_width_640 lvlC5 rfl
  refine ⟨hr, ?_⟩
  unfold TileLevel.check
  dsimp only
  rw [hr]
  norm_num [lvlC5]
  decide

/-- C5 amended: an out-of-range *row* (with the column in range) makes the
flattened index fall outside the `blocks` array, so `check` returns a
falsy value and never throws; an out-of-range column instead aliases into
a neighboring row and may return an occupied tile. -/
theorem c5_amended (l : TileLevel) (cols x y : ℤ)
    (hlen : (l.blocks.length : ℤ) = l.rows * cols)
    (hx0 : 0 ≤ x) (hxr : x < l.rows) (hy : y < 0 ∨ cols ≤ y) :
    l.check x y = false := by
  have hrow : 0 < l.rows := lt_of_le_of_lt hx0 hxr
  unfold TileLevel.check
  dsimp only
  rcases hy with hy | hy
  · have hmul : y * l.rows ≤ (-1) * l.rows :=
      mul_le_mul_of_nonneg_right (by omega) (le_of_lt hrow)
    rw [if_neg (by omega : ¬(0 : ℤ) ≤ x + y * l.rows)]
  · have hcols : 0 ≤ cols := by
      by_contra hc
      push_neg at hc
      have hneg : l.rows * cols < 0 := mul_neg_of_pos_of_neg hrow hc
      have hlen0 : (0 : ℤ) ≤ (l.blocks.length : ℤ) := Int.ofNat_nonneg _
      omega
    have hmul : cols * l.rows ≤ y * l.rows :=
      mul_le_mul_of_nonneg_right hy (le_of_lt hrow)
    have hige : (l.blocks.length : ℤ) ≤ x + y * l.rows := by
      rw [hlen]
      have : l.rows * cols = cols * l.rows := by ring
      omega
    rw [if_pos (by omega : (0 : ℤ) ≤ x + y * l.rows)]
    apply List.getD_eq_default
    omega

/-- Witness for the amended C5 at a concrete input: row 5 is out of range
on the 4x4 grid and the lookup is falsy. -/
theorem c5_amended_witness :
    ((lvlC5.blocks.length : ℤ) = lvlC5.rows * 4) ∧ ((0 : ℤ) ≤ 0) ∧
      ((0 : ℤ) < lvlC5.rows) ∧ (((5 : ℤ) < 0) ∨ ((4 : ℤ) ≤ 5)) ∧
      lvlC5.check 0 5 = false := by
  have hr : lvlC5.rows = 4 := rows_of_width_640 lvlC5 rfl
  refine ⟨by rw [hr]; norm_num [lvlC5], le_refl 0, by rw [hr]; norm_num,
    Or.inr (by norm_num), ?_⟩
  exact c5_amended lvlC5 4 0 5 (by rw [hr]; norm_num [lvlC5]) (le_refl 0)
    (by rw [hr]; norm_num) (Or.inr (by norm_num))

/-! ## C1: the tile-grid example scenario -/

/-- Full evaluation of the tile-variant physics step on the spec's example
scenario: 4x4 grid, tile (1,1) occupied, start (140, 0), input = down,
dt = 0.1.  The vertical delta 51.2 is blocked and the downward snap is
`topLeft.y * TILE_SIZE + PLAYER_COLLIDER_SIZE / 2 - 1 = 0 + 32 - 1 = 31`. -/
theorem check_eval (l : TileLevel) (x y r : ℤ) (hr : l.rows = r) :
    l.check x y =
      (if 0 ≤ x + y * r then l.blocks.getD (x + y * r).toNat false else false) := by
  unfold TileLevel.check
  rw [hr]

theorem c1_eval :
    tileStepPhysics hidePlayer 140 0 8 (some lvlC1) 0.1 = ⟨⟨0, 1⟩, 140, 31⟩ := by
  have hdx : inputDirX 8 = 0 := by decide
  have hdy : inputDirY 8 = 1 := by decide
  have hnorm : normDir 8 = ⟨0, 1⟩ := by
    unfold normDir
    rw [hdx, hdy]
    norm_num
  have hr : lvlC1.rows = 4 := rows_of_width_640 lvlC1 rfl
  have hc00 : lvlC1.check 0 0 = false := by
    rw [check_eval lvlC1 0 0 4 hr]
    norm_num [lvlC1, Int.toNat_ofNat]
  have hc10 : lvlC1.check 1 0 = false := by
    rw [check_eval lvlC1 1 0 4 hr]
    norm_num [lvlC1, Int.toNat_ofNat]
  have hc01 : lvlC1.check 0 1 = false := by
    rw [check_eval lvlC1 0 1 4 hr]
    norm_num [lvlC1]
    decide
  have hc11 : lvlC1.check 1 1 = true := by
    rw [check_eval lvlC1 1 1 4 hr]
    norm_num [lvlC1]
    decide
  unfold tileStepPhysics
  dsimp only
  rw [hnorm]
  norm_num [hc00, hc10, hc01, hc11, jsToInt32_small, jsSign, hidePlayer,
    PLAYER_SPEED, PLAYER_COLLIDER_SIZE, PLAYER_COLLIDER_OFFSET, TILE_SIZE]

/-- C1 counterexample: on the spec's example scenario the tile-variant
step does **not** return y = 96; the downward snap formula
`topLeft.y * TILE_SIZE + PLAYER_COLLIDER_SIZE / 2 - 1` yields 31. -/
theorem c1_counterexample :
    (tileStepPhysics hidePlayer 140 0 8 (some lvlC1) 0.1).y ≠ 96 := by
  rw [c1_eval]
  norm_num

/-- C1 amended: the vertical delta 51.2 is blocked (the result is not the
unblocked `0 + 512 * 0.1`), and the returned position is y = 31 =
`topLeft.y * TILE_SIZE + PLAYER_COLLIDER_SIZE / 2 - 1`, with x = 140
unchanged and direction (0, 1). -/
theorem c1_amended :
    tileStepPhysics hidePlayer 140 0 8 (some lvlC1) 0.1 = ⟨⟨0, 1⟩, 140, 31⟩ ∧
    (tileStepPhysics hidePlayer 140 0 8 (some lvlC1) 0.1).y ≠ 0 + 512 * 0.1 := by
  refine ⟨c1_eval, ?_⟩
  rw [c1_eval]
  norm_num

/-! ## C3: conservative early-out of the MTV resolution -/

theorem foldl_min_le_init (f : Vector2 → ℝ) (vs : List Vector2) (i : ℝ) :
    vs.foldl (fun m v => min m (f v)) i ≤ i := by
  induction vs generalizing i with
  | nil => exact le_refl i
  | cons v rest ih => exact le_trans (ih (min i (f v))) (min_le_left i (f v))

theorem foldl_min_le_mem (f : Vector2 → ℝ) (vs : List Vector2)
    {v : Vector2} (hv : v ∈ vs) :
    ∀ i : ℝ, vs.foldl (fun m v => min m (f v)) i ≤ f v := by
  induction vs with
  | nil => cases hv
  | cons w rest ih =>
    intro i
    rcases List.mem_cons.mp hv with rfl | hmem
    · exact le_trans (foldl_min_le_init f rest (min i (f v))) (min_le_right i (f v))
    · exact ih hmem (min i (f w))

theorem foldl_max_ge_init (f : Vector2 → ℝ) (vs : List Vector2) (i : ℝ) :
    i ≤ vs.foldl (fun m v => max m (f v)) i := by
  induction vs generalizing i with
  | nil => exact le_refl i
  | cons v rest ih => exact le_trans (le_max_left i (f v)) (ih (max i (f v)))

theorem foldl_max_ge_mem (f : Vector2 → ℝ) (vs : List Vector2)
    {v : Vector2} (hv : v ∈ vs) :
    ∀ i : ℝ, f v ≤ vs.foldl (fun m v => max m (f v)) i := by
  induction vs with
  | nil => cases hv
  | cons w rest ih =>
    intro i
    rcases List.mem_cons.mp hv with rfl | hmem
    · exact le_trans (le_max_right i (f v)) (foldl_max_ge_init f rest (max i (f v)))
    · exact ih hmem (max i (f w))

theorem projectMin_le_projectMax (normal : Vector2) (vs : List Vector2)
    (h : vs ≠ []) : projectMin normal vs ≤ projectMax normal vs := by
  obtain ⟨v, hv⟩ := List.exists_mem_of_ne_nil vs h
  exact le_trans (foldl_min_le_mem (fun w => normal.dot w) vs hv numberMaxValue)
    (foldl_max_ge_mem (fun w => normal.dot w) vs hv (-numberMaxValue))

theorem edgeOverlap_nonneg (rectVs polyVs : List Vector2) (e : Vector2 × Vector2)
    (hr : rectVs ≠ []) (hp : polyVs ≠ [])
    (hsep : ¬ edgeSeparated rectVs polyVs e (edgeNormal e)) :
    0 ≤ edgeOverlap rectVs polyVs e := by
  unfold edgeSeparated at hsep
  push_neg at hsep
  unfold edgeOverlap
  dsimp only
  have h1 := projectMin_le_projectMax (edgeNormal e) rectVs hr
  have h2 := projectMin_le_projectMax (edgeNormal e) polyVs hp
  have h3 := hsep.1
  have h4 := hsep.2
  simp only [le_min_iff, max_le_iff, sub_nonneg]
  exact ⟨⟨h1, h3⟩, ⟨h4, h2⟩⟩

theorem length_zero_of_zero : (Vector2.mk 0 0).length = 0 := by
  unfold Vector2.length
  norm_num

theorem vec_eq_zero_of_length_nonpos (v : Vector2) (h : ¬ 0 < v.length) :
    v = ⟨0, 0⟩ := by
  unfold Vector2.length at h
  push_neg at h
  have hx : v.x * v.x + v.y * v.y ≤ 0 := by
    by_contra hc
    push_neg at hc
    have := Real.sqrt_pos.mpr hc
    linarith
  have hx2 : v.x = 0 := by nlinarith [mul_self_nonneg v.x, mul_self_nonneg v.y]
  have hy2 : v.y = 0 := by nlinarith [mul_self_nonneg v.x, mul_self_nonneg v.y]
  cases v
  simp_all

theorem resolveLoop_zero (rectVs polyVs : List Vector2)
    (hr : rectVs ≠ []) (hp : polyVs ≠ []) (edges : List (Vector2 × Vector2)) :
    resolveLoop rectVs polyVs edges ⟨0, 0⟩ = ⟨0, 0⟩ := by
  induction edges with
  | nil => rfl
  | cons e rest ih =>
    unfold resolveLoop
    dsimp only
    by_cases hsep : edgeSeparated rectVs polyVs e (edgeNormal e)
    · rw [if_pos hsep]
    · rw [if_neg hsep, if_neg, ih]
      rw [length_zero_of_zero]
      push_neg
      exact edgeOverlap_nonneg rectVs polyVs e hr hp hsep

theorem resolveLoop_sep (rectVs polyVs : List Vector2)
    (hr : rectVs ≠ []) (hp : polyVs ≠ []) :
    ∀ (edges : List (Vector2 × Vector2)) (mtv : Vector2),
      (∃ e ∈ edges, edgeOverlap rectVs polyVs e ≤ 0) →
      resolveLoop rectVs polyVs edges mtv = ⟨0, 0⟩ := by
  intro edges
  induction edges with
  | nil =>
    intro mtv h
    rcases h with ⟨e, he, _⟩
    cases he
  | cons e rest ih =>
    intro mtv h
    rcases h with ⟨e', he', hov⟩
    unfold resolveLoop
    dsimp only
    by_cases hsep : edgeSeparated rectVs polyVs e (edgeNormal e)
    · rw [if_pos hsep]
    · rw [if_neg hsep]
      rcases List.mem_cons.mp he' with rfl | hmem
      · have h0 : edgeOverlap rectVs polyVs e' = 0 :=
          le_antisymm hov (edgeOverlap_nonneg rectVs polyVs e' hr hp hsep)
        by_cases hlt : edgeOverlap rectVs polyVs e' < mtv.length
        · rw [if_pos hlt, h0]
          have hmul : ∀ w : Vector2, w.multiply 0 = ⟨0, 0⟩ := by
            intro w
            unfold Vector2.multiply
            norm_num
          rw [hmul]
          exact resolveLoop_zero rectVs polyVs hr hp rest
        · rw [if_neg hlt]
          have hmtv : mtv = ⟨0, 0⟩ := by
            apply vec_eq_zero_of_length_nonpos
            intro hpos
            rw [h0] at hlt
            exact hlt hpos
          rw [hmtv]
          exact resolveLoop_zero rectVs polyVs hr hp rest
      · by_cases hlt : edgeOverlap rectVs polyVs e < mtv.length
        · rw [if_pos hlt]
          exact ih _ ⟨e', hmem, hov⟩
        · rw [if_neg hlt]
          exact ih _ ⟨e', hmem, hov⟩

/-- C3: if any polygon-edge normal axis shows zero-or-negative overlap
between the projection intervals of the rectangle and of the polygon
(exactly the quantity the edge loop computes), `resolveCollision` returns
the zero vector. -/
theorem c3_mtv_early_out (rectangle : Rectangle) (polygon : Polygon)
    (h : ∃ e ∈ polygon.edges, edgeOverlap rectangle.vertices polygon.vertices e ≤ 0) :
    resolveCollision rectangle polygon = ⟨0, 0⟩ := by
  have hr : rectangle.vertices ≠ [] := by
    unfold Rectangle.vertices
    simp
  have hp : polygon.vertices ≠ [] := by
    rcases h with ⟨e, he, _⟩
    intro hnil
    rw [Polygon.edges, hnil] at he
    cases he
  unfold resolveCollision
  exact resolveLoop_sep rectangle.vertices polygon.vertices hr hp polygon.edges _ h

/-- Witness for C3 at a concrete input: a unit square at the origin and a
distant triangle; the first triangle edge's normal axis separates the
projection intervals, and the MTV is the zero vector. -/
theorem c3_mtv_early_out_witness :
    (∃ e ∈ polyC3.edges, edgeOverlap rectC3.vertices polyC3.vertices e ≤ 0) ∧
    resolveCollision rectC3 polyC3 = ⟨0, 0⟩ := by
  have hedges : polyC3.edges =
      [(⟨10, 10⟩, ⟨11, 10⟩), (⟨11, 10⟩, ⟨10, 11⟩), (⟨10, 11⟩, ⟨10, 10⟩)] := by
    unfold polyC3 Polygon.edges
    rfl
  have hnormal : edgeNormal (⟨10, 10⟩, ⟨11, 10⟩) = ⟨0, 1⟩ := by
    unfold edgeNormal Vector2.subtract Vector2.normalize Vector2.length
    dsimp only
    norm_num [Real.sqrt_one]
  have hex : ∃ e ∈ polyC3.edges, edgeOverlap rectC3.vertices polyC3.vertices e ≤ 0 := by
    refine ⟨(⟨10, 10⟩, ⟨11, 10⟩), ?_, ?_⟩
    · rw [hedges]
      exact List.mem_cons_self _ _
    · unfold edgeOverlap
      dsimp only
      rw [hnormal]
      unfold projectMin projectMax Vector2.dot rectC3 polyC3 Rectangle.vertices
      dsimp only
      norm_num [numberMaxValue, min_def, max_def]
  exact ⟨hex, c3_mtv_early_out rectC3 polyC3 hex⟩

/-! ## JSNum computation rules -/

namespace JSNum

@[simp] theorem add_num_num (a b : ℝ) : add (num a) (num b) = num (a + b) := rfl

@[simp] theorem add_num_nan (a : ℝ) : add (num a) nan = nan := rfl

@[simp] theorem add_nan (b : JSNum) : add nan b = nan := by
  cases b <;> rfl

@[simp] theorem sub_num_num (a b : ℝ) : sub (num a) (num b) = num (a - b) := by
  unfold sub neg add
  dsimp only
  rw [← sub_eq_add_neg]

@[simp] theorem sub_num_nan (a : ℝ) : sub (num a) nan = nan := rfl

@[simp] theorem sub_nan (b : JSNum) : sub nan b = nan := by
  cases b <;> rfl

@[simp] theorem mul_num_num (a b : ℝ) : mul (num a) (num b) = num (a * b) := rfl

@[simp] theorem mul_num_nan (a : ℝ) : mul (num a) nan = nan := rfl

@[simp] theorem mul_nan (b : JSNum) : mul nan b = nan := by
  cases b <;> rfl

theorem div_num_num (a b : ℝ) (hb : b ≠ 0) : div (num a) (num b) = num (a / b) := by
  unfold div
  dsimp only
  rw [if_neg hb]

@[simp] theorem div_num_zero (a : ℝ) :
    div (num a) (num 0) = if 0 < a then posInf else if a < 0 then negInf else nan := by
  unfold div
  dsimp only
  rw [if_pos rfl]

@[simp] theorem div_nan_num (b : JSNum) : div nan b = nan := by
  cases b <;> rfl

@[simp] theorem ltb_num_num (a b : ℝ) : ltb (num a) (num b) = decide (a < b) := rfl

@[simp] theorem ltb_num_nan (a : ℝ) : ltb (num a) nan = false := rfl

@[simp] theorem ltb_nan (b : JSNum) : ltb nan b = false := by
  cases b <;> rfl

@[simp] theorem ltb_num_posInf (a : ℝ) : ltb (num a) posInf = true := rfl

@[simp] theorem ltb_num_negInf (a : ℝ) : ltb (num a) negInf = false := rfl

@[simp] theorem ltb_posInf (b : JSNum) : ltb posInf b = false := by
  cases b <;> rfl

@[simp] theorem ltb_negInf_num (a : ℝ) : ltb negInf (num a) = true := rfl

@[simp] theorem eqb_num_num (a b : ℝ) : eqb (num a) (num b) = decide (a = b) := rfl

@[simp] theorem eqb_num_nan (a : ℝ) : eqb (num a) nan = false := rfl

@[simp] theorem eqb_nan (b : JSNum) : eqb nan b = false := by
  cases b <;> rfl

theorem num_ne_nan (a : ℝ) : num a ≠ nan := by
  intro h
  cases h

end JSNum

/-! ## C4: parallel ray/segment degenerate case -/

/-- C4: for the ray (0,0)→(1,0) and the segment (2,0)→(1,0) — exactly
opposite unit direction vectors, collinear — `getIntersection` does *not*
return `null`: the unit-vector parallel check only catches *equal* unit
vectors, the intersection denominator is zero, `T2 = 0/0 = NaN` passes
both range checks (NaN comparisons are false), and the function returns a
point whose coordinates are NaN.  This contradicts the spec's requirement
that parallel degenerate cases return "no intersection" with no NaN
propagation. -/
theorem c4_opposite_parallel_nan :
    getIntersection ⟨⟨0, 0⟩, ⟨1, 0⟩⟩ ⟨⟨2, 0⟩, ⟨1, 0⟩⟩ =
      some ⟨JSNum.nan, JSNum.nan, JSNum.nan⟩ := by
  unfold getIntersection
  dsimp only
  rw [show ((1 : ℝ) - 0) * (1 - 0) + (0 - 0) * (0 - 0) = 1 by norm_num]
  rw [show ((1 : ℝ) - 2) * (1 - 2) + (0 - 0) * (0 - 0) = 1 by norm_num]
  rw [Real.sqrt_one]
  norm_num [JSNum.div_num_num]

/-! ## C7: sight polygon ordering and angle consistency -/

theorem JSNum.ltb_any_nan (x : JSNum) : JSNum.ltb x JSNum.nan = false := by
  cases x <;> rfl

theorem mem_insertAngle_self (l : List ℝ) (a : ℝ) : a ∈ insertAngle l a := by
  unfold insertAngle
  split
  · assumption
  · simp

theorem mem_insertAngle_of_mem (l : List ℝ) (a b : ℝ) (h : a ∈ l) :
    a ∈ insertAngle l b := by
  unfold insertAngle
  split
  · exact h
  · simp [h]

theorem collectAngles_fold_mono (pX pY : ℝ) :
    ∀ (pts : List Pt) (acc : List ℝ) (a : ℝ), a ∈ acc →
      a ∈ pts.foldl (fun acc pt =>
        let angle := atan2 (pt.y - pY) (pt.x - pX)
        insertAngle (insertAngle (insertAngle acc (angle - 0.00001)) angle)
          (angle + 0.00001)) acc := by
  intro pts
  induction pts with
  | nil => intro acc a h; exact h
  | cons pt rest ih =>
    intro acc a h
    rw [List.foldl_cons]
    exact ih _ a (mem_insertAngle_of_mem _ _ _ (mem_insertAngle_of_mem _ _ _
      (mem_insertAngle_of_mem _ _ _ h)))

theorem mem_collect_fold (pX pY : ℝ) :
    ∀ (pts : List Pt) (acc : List ℝ) (pt : Pt), pt ∈ pts →
      atan2 (pt.y - pY) (pt.x - pX) ∈ pts.foldl (fun acc pt =>
        let angle := atan2 (pt.y - pY) (pt.x - pX)
        insertAngle (insertAngle (insertAngle acc (angle - 0.00001)) angle)
          (angle + 0.00001)) acc := by
  intro pts
  induction pts with
  | nil => intro acc pt h; cases h
  | cons q rest ih =>
    intro acc pt h
    rw [List.foldl_cons]
    rcases List.mem_cons.mp h with rfl | hmem
    · apply collectAngles_fold_mono
      exact mem_insertAngle_of_mem _ _ _ (mem_insertAngle_self _ _)
    · exact ih _ pt hmem

theorem mem_collectAngles (pX pY : ℝ) (pts : List Pt) (pt : Pt) (hpt : pt ∈ pts) :
    atan2 (pt.y - pY) (pt.x - pX) ∈ collectAngles pX pY pts := by
  unfold collectAngles
  exact mem_collect_fold pX pY pts [] pt hpt

theorem closestHit_fold_mem (ray : Seg) :
    ∀ (segs : List Seg) (acc : Option JSHit) (res : JSHit),
      segs.foldl (fun acc s =>
        match getIntersection ray s with
        | none => acc
        | some i =>
          match acc with
          | none => some i
          | some c => if i.param.ltb c.param then some i else acc) acc = some res →
      acc = some res ∨ ∃ s ∈ segs, getIntersection ray s = some res := by
  intro segs
  induction segs with
  | nil => intro acc res h; exact Or.inl h
  | cons s rest ih =>
    intro acc res h
    rw [List.foldl_cons] at h
    rcases ih _ res h with hstep | ⟨s', hs', hres⟩
    · rcases hi : getIntersection ray s with _ | i
      · rw [hi] at hstep
        exact Or.inl hstep
      · rw [hi] at hstep
        cases acc with
        | none =>
          have hstep2 : some i = some res := hstep
          exact Or.inr ⟨s, List.mem_cons_self _ _, by rw [hi]; exact hstep2⟩
        | some c =>
          have hstep2 : (if i.param.ltb c.param = true then some i else some c) =
              some res := hstep
          by_cases hlt : i.param.ltb c.param = true
          · rw [if_pos hlt] at hstep2
            exact Or.inr ⟨s, List.mem_cons_self _ _, by rw [hi]; exact hstep2⟩
          · rw [if_neg hlt] at hstep2
            exact Or.inl hstep2
    · exact Or.inr ⟨s', List.mem_cons_of_mem s hs', hres⟩

theorem closestHit_mem (ray : Seg) (segs : List Seg) (res : JSHit)
    (h : closestHit ray segs = some res) :
    ∃ s ∈ segs, getIntersection ray s = some res := by
  unfold closestHit at h
  rcases closestHit_fold_mem ray segs none res h with hnone | hmem
  · cases hnone
  · exact hmem

theorem closestHit_fold_keep_nan (ray : Seg) (h : JSHit)
    (hparam : h.param = JSNum.nan) :
    ∀ segs : List Seg,
      segs.foldl (fun acc s =>
        match getIntersection ray s with
        | none => acc
        | some i =>
          match acc with
          | none => some i
          | some c => if i.param.ltb c.param then some i else acc) (some h) = some h := by
  intro segs
  induction segs with
  | nil => rfl
  | cons s rest ih =>
    rw [List.foldl_cons]
    rcases hi : getIntersection ray s with _ | i
    · exact ih
    · show List.foldl _ (if i.param.ltb h.param = true then some i else some h) rest = _
      rw [if_neg (by rw [hparam, JSNum.ltb_any_nan]; exact Bool.false_ne_true)]
      exact ih

theorem getIntersection_ray_form (ray segment : Seg) (h : JSHit)
    (hh : getIntersection ray segment = some h) :
    h.x = (JSNum.num ray.a.x).add ((JSNum.num (ray.b.x - ray.a.x)).mul h.param) ∧
    h.y = (JSNum.num ray.a.y).add ((JSNum.num (ray.b.y - ray.a.y)).mul h.param) ∧
    h.param.ltb (JSNum.num 0) = false := by
  unfold getIntersection at hh
  dsimp only at hh
  split at hh
  · cases hh
  · split at hh
    · cases hh
    · split at hh
      · cases hh
      · rw [Option.some_inj] at hh
        subst hh
        refine ⟨rfl, rfl, ?_⟩
        rw [Bool.eq_false_iff]
        assumption

theorem atan2_mul_pos (θ t : ℝ) (ht : 0 < t) :
    (atan2 (t * Real.sin θ) (t * Real.cos θ) : Real.Angle) = (θ : Real.Angle) := by
  unfold atan2
  have hz : (⟨t * Real.cos θ, t * Real.sin θ⟩ : ℂ) =
      (t : ℂ) * (((θ : Real.Angle)).cos + ((θ : Real.Angle)).sin * Complex.I) := by
    rw [Real.Angle.cos_coe, Real.Angle.sin_coe]
    rw [Complex.ext_iff]
    constructor
    · simp [Complex.mul_re]
      exact Or.inl (Complex.cos_ofReal_re θ).symm
    · simp [Complex.mul_im]
      exact Or.inl (Complex.sin_ofReal_re θ).symm
  rw [hz]
  exact Complex.arg_mul_cos_add_sin_mul_I_coe_angle ht (θ : Real.Angle)

theorem getSightPolygon_sorted (pX pY xView yView : ℝ) (level : TileLevel) :
    List.Sorted (fun u v : SightVertex => u.angle ≤ v.angle)
      (getSightPolygon pX pY xView yView level) := by
  unfold getSightPolygon
  dsimp only
  have h := @List.sorted_mergeSort SightVertex
    (fun u v : SightVertex => decide (u.angle ≤ v.angle))
    (fun a b c hab hbc => by
      simp only [decide_eq_true_eq] at *
      exact le_trans hab hbc)
    (fun a b => by
      rcases le_total a.angle b.angle with hle | hle
      · simp [hle]
      · simp [hle])
    ((collectAngles pX pY (segmentPoints (borderSegments xView yView))).filterMap
      (castRay pX pY (borderSegments xView yView)))
  exact h.imp (fun hab => by simpa using hab)

/-- C7 amended: the sight polygon is sorted by non-decreasing angle, and
every output vertex lies on the unit ray of its recorded angle:
`(x, y) = origin + param·(cos angle, sin angle)` with `¬(param < 0)` in JS
semantics; whenever the vertex coordinates and `param` are genuine (non-NaN,
finite) numbers with `param > 0`, `atan2(y - pY, x - pX)` equals the
recorded angle modulo 2π.  (Vertices with NaN coordinates can occur for
degenerate origins — see the counterexample — which is why the atan2 form
is restricted to real coordinates.) -/
theorem c7_amended (pX pY xView yView : ℝ) (level : TileLevel) :
    List.Sorted (fun u v : SightVertex => u.angle ≤ v.angle)
      (getSightPolygon pX pY xView yView level) ∧
    ∀ v ∈ getSightPolygon pX pY xView yView level,
      v.x = (JSNum.num pX).add ((JSNum.num (Real.cos v.angle)).mul v.param) ∧
      v.y = (JSNum.num pY).add ((JSNum.num (Real.sin v.angle)).mul v.param) ∧
      v.param.ltb (JSNum.num 0) = false ∧
      ∀ x y t : ℝ, v.x = JSNum.num x → v.y = JSNum.num y → v.param = JSNum.num t →
        0 < t → (atan2 (y - pY) (x - pX) : Real.Angle) = (v.angle : Real.Angle) := by
  refine ⟨getSightPolygon_sorted pX pY xView yView level, ?_⟩
  intro v hv
  unfold getSightPolygon at hv
  dsimp only at hv
  rw [List.mem_mergeSort, List.mem_filterMap] at hv
  obtain ⟨θ, hθmem, hcast⟩ := hv
  unfold castRay at hcast
  dsimp only at hcast
  rw [Option.map_eq_some'] at hcast
  obtain ⟨h, hclosest, hveq⟩ := hcast
  obtain ⟨s, hs, hint⟩ := closestHit_mem _ _ _ hclosest
  have hform := getIntersection_ray_form _ _ _ hint
  dsimp only at hform
  rw [add_sub_cancel_left, add_sub_cancel_left] at hform
  subst hveq
  dsimp only
  refine ⟨hform.1, hform.2.1, hform.2.2, ?_⟩
  intro x y t hx hy ht hpos
  rw [ht] at hform
  rw [hform.1] at hx
  rw [hform.2.1] at hy
  simp only [JSNum.mul_num_num, JSNum.add_num_num] at hx hy
  have hx2 : pX + Real.cos θ * t = x := by
    have := hx
    injection this
  have hy2 : pY + Real.sin θ * t = y := by
    have := hy
    injection this
  have hxx : x - pX = t * Real.cos θ := by rw [← hx2]; ring
  have hyy : y - pY = t * Real.sin θ := by rw [← hy2]; ring
  rw [hxx, hyy]
  exact atan2_mul_pos θ t hpos

theorem atan2_360_0 : atan2 (0 + GAME_HEIGHT - 360) (0 - 0) = Real.pi / 2 := by
  unfold atan2
  rw [show (0:ℝ) + GAME_HEIGHT - 360 = 360 by norm_num [GAME_HEIGHT],
    show (0:ℝ) - 0 = 0 by norm_num]
  exact Complex.arg_eq_pi_div_two_iff.mpr ⟨rfl, by norm_num⟩

theorem pi_div_two_mem_angles :
    Real.pi / 2 ∈ collectAngles 0 360 (segmentPoints (borderSegments 0 0)) := by
  have hpt : (⟨0, 0 + GAME_HEIGHT⟩ : Pt) ∈ segmentPoints (borderSegments 0 0) := by
    unfold segmentPoints borderSegments
    simp
  have h0 := mem_collectAngles 0 360 _ _ hpt
  dsimp only at h0
  rw [atan2_360_0] at h0
  exact h0

theorem getIntersection_top_nan :
    getIntersection ⟨⟨0, 360⟩, ⟨0 + 0, 360 + 1⟩⟩ ⟨⟨0, 0⟩, ⟨0 + GAME_WIDTH, 0⟩⟩ =
      some ⟨JSNum.nan, JSNum.nan, JSNum.nan⟩ := by
  unfold getIntersection
  dsimp only
  simp only [GAME_WIDTH]
  rw [show ((0:ℝ) + 0 - 0) * (0 + 0 - 0) + (360 + 1 - 360) * (360 + 1 - 360) = 1
    by norm_num]
  rw [show ((0:ℝ) + 1280 - 0) * (0 + 1280 - 0) + (0 - 0) * (0 - 0) = 1280 ^ 2
    by norm_num]
  rw [Real.sqrt_one, Real.sqrt_sq (by norm_num : (0:ℝ) ≤ 1280)]
  norm_num [JSNum.div_num_num]

theorem castRay_pi_div_two :
    castRay 0 360 (borderSegments 0 0) (Real.pi / 2) =
      some ⟨JSNum.nan, JSNum.nan, JSNum.nan, Real.pi / 2⟩ := by
  unfold castRay
  dsimp only
  rw [Real.cos_pi_div_two, Real.sin_pi_div_two]
  have hclosest : closestHit ⟨⟨0, 360⟩, ⟨0 + 0, 360 + 1⟩⟩ (borderSegments 0 0) =
      some ⟨JSNum.nan, JSNum.nan, JSNum.nan⟩ := by
    unfold closestHit borderSegments
    rw [List.foldl_cons, getIntersection_top_nan]
    exact closestHit_fold_keep_nan _ _ rfl _
  rw [hclosest]
  rfl

/-- C7 counterexample: with the origin (0, 360) exactly on the line of the
left viewport border (viewport at (0, 0)), the corner (0, 720) registers
the exact angle π/2; the vertical ray at that angle divides by
`r_dx = cos(π/2) = 0`, `T1 = 0/0 = NaN` slips through the NaN-false
comparisons, and the output polygon contains a vertex whose coordinates
are NaN — so it is false that every output vertex is a point (x, y) whose
`atan2` direction from the origin matches its recorded angle. -/
theorem c7_counterexample :
    ¬ (List.Sorted (fun u v : SightVertex => u.angle ≤ v.angle)
        (getSightPolygon 0 360 0 0 lvlEmpty) ∧
      ∀ v ∈ getSightPolygon 0 360 0 0 lvlEmpty,
        ∃ x y : ℝ, v.x = JSNum.num x ∧ v.y = JSNum.num y ∧
          (atan2 (y - 360) (x - 0) : Real.Angle) = (v.angle : Real.Angle)) := by
  intro hclaim
  have hmem : (⟨JSNum.nan, JSNum.nan, JSNum.nan, Real.pi / 2⟩ : SightVertex) ∈
      getSightPolygon 0 360 0 0 lvlEmpty := by
    unfold getSightPolygon
    dsimp only
    rw [List.mem_mergeSort, List.mem_filterMap]
    exact ⟨Real.pi / 2, pi_div_two_mem_angles, castRay_pi_div_two⟩
  obtain ⟨x, y, hx, _, _⟩ := hclaim.2 _ hmem
  exact JSNum.num_ne_nan x hx.symm

/-! ## C8: visibility with no occluders -/

namespace JSNum

@[simp] theorem add_num_posInf (a : ℝ) : add (num a) posInf = posInf := rfl

@[simp] theorem add_num_negInf (a : ℝ) : add (num a) negInf = negInf := rfl

@[simp] theorem sub_posInf_num (b : ℝ) : sub posInf (num b) = posInf := rfl

@[simp] theorem sub_negInf_num (b : ℝ) : sub negInf (num b) = negInf := rfl

@[simp] theorem mul_num_posInf (a : ℝ) :
    mul (num a) posInf = if 0 < a then posInf else if a < 0 then negInf else nan := rfl

@[simp] theorem mul_num_negInf (a : ℝ) :
    mul (num a) negInf = if 0 < a then negInf else if a < 0 then posInf else nan := rfl

@[simp] theorem div_posInf_num (b : ℝ) :
    div posInf (num b) = if 0 ≤ b then posInf else negInf := rfl

@[simp] theorem div_negInf_num (b : ℝ) :
    div negInf (num b) = if 0 ≤ b then negInf else posInf := rfl

@[simp] theorem ltb_negInf_posInf : ltb negInf posInf = true := rfl

end JSNum

theorem mem_insertAngle_elim (l : List ℝ) (a b : ℝ) (h : b ∈ insertAngle l a) :
    b ∈ l ∨ b = a := by
  unfold insertAngle at h
  split at h
  · exact Or.inl h
  · rcases List.mem_append.mp h with h1 | h1
    · exact Or.inl h1
    · exact Or.inr (List.mem_singleton.mp h1)

theorem collectAngles_fold_elim (pX pY : ℝ) :
    ∀ (pts : List Pt) (acc : List ℝ) (a : ℝ),
      a ∈ pts.foldl (fun acc pt =>
        let angle := atan2 (pt.y - pY) (pt.x - pX)
        insertAngle (insertAngle (insertAngle acc (angle - 0.00001)) angle)
          (angle + 0.00001)) acc →
      a ∈ acc ∨ ∃ pt ∈ pts, a = atan2 (pt.y - pY) (pt.x - pX) - 0.00001 ∨
        a = atan2 (pt.y - pY) (pt.x - pX) ∨
        a = atan2 (pt.y - pY) (pt.x - pX) + 0.00001 := by
  intro pts
  induction pts with
  | nil => intro acc a h; exact Or.inl h
  | cons pt rest ih =>
    intro acc a h
    rw [List.foldl_cons] at h
    rcases ih _ a h with hacc | ⟨pt', hpt', hforms⟩
    · rcases mem_insertAngle_elim _ _ _ hacc with hacc | hform
      · rcases mem_insertAngle_elim _ _ _ hacc with hacc | hform
        · rcases mem_insertAngle_elim _ _ _ hacc with hacc | hform
          · exact Or.inl hacc
          · exact Or.inr ⟨pt, List.mem_cons_self _ _, Or.inl hform⟩
        · exact Or.inr ⟨pt, List.mem_cons_self _ _, Or.inr (Or.inl hform)⟩
      · exact Or.inr ⟨pt, List.mem_cons_self _ _, Or.inr (Or.inr hform)⟩
    · exact Or.inr ⟨pt', List.mem_cons_of_mem _ hpt', hforms⟩

theorem collectAngles_elim (pX pY : ℝ) (pts : List Pt) (a : ℝ)
    (h : a ∈ collectAngles pX pY pts) :
    ∃ pt ∈ pts, a = atan2 (pt.y - pY) (pt.x - pX) - 0.00001 ∨
      a = atan2 (pt.y - pY) (pt.x - pX) ∨
      a = atan2 (pt.y - pY) (pt.x - pX) + 0.00001 := by
  unfold collectAngles at h
  rcases collectAngles_fold_elim pX pY pts [] a h with hacc | hforms
  · cases hacc
  · exact hforms

theorem segmentPoints_borders_sub (xView yView : ℝ) (pt : Pt)
    (h : pt ∈ segmentPoints (borderSegments xView yView)) :
    pt ∈ cornersOf xView yView := by
  unfold segmentPoints borderSegments at h
  unfold cornersOf
  simp only [List.flatMap_cons, List.flatMap_nil, List.append_nil, List.mem_append,
    List.mem_cons, List.mem_singleton, List.not_mem_nil, or_false] at h ⊢
  tauto

theorem unit_ray_mag (dx dy d : ℝ) (hd : d = Real.sqrt (dx * dx + dy * dy))
    (hpos : 0 < d) :
    Real.sqrt ((dx / d) * (dx / d) + (dy / d) * (dy / d)) = 1 := by
  have hsum : dx * dx + dy * dy = d * d := by
    rw [hd]
    exact (Real.mul_self_sqrt (add_nonneg (mul_self_nonneg dx) (mul_self_nonneg dy))).symm
  have hdne : d ≠ 0 := ne_of_gt hpos
  have harg : (dx / d) * (dx / d) + (dy / d) * (dy / d) = 1 := by
    rw [div_mul_div_comm, div_mul_div_comm, div_add_div_same, hsum]
    exact div_self (mul_ne_zero hdne hdne)
  rw [harg, Real.sqrt_one]

theorem cos_sin_atan2 (y x : ℝ) (hne : ¬(x = 0 ∧ y = 0)) :
    Real.cos (atan2 y x) = x / Real.sqrt (x * x + y * y) ∧
    Real.sin (atan2 y x) = y / Real.sqrt (x * x + y * y) := by
  unfold atan2
  have hz : (⟨x, y⟩ : ℂ) ≠ 0 := by
    intro hc
    rw [Complex.ext_iff] at hc
    exact hne ⟨hc.1, hc.2⟩
  constructor
  · rw [Complex.cos_arg hz, Complex.abs_apply, Complex.normSq_mk]
  · rw [Complex.sin_arg, Complex.abs_apply, Complex.normSq_mk]

theorem getIntersection_eval (ray seg : Seg) (rmag smag t2 t1 : ℝ)
    (hrmag : Real.sqrt ((ray.b.x - ray.a.x) * (ray.b.x - ray.a.x) +
      (ray.b.y - ray.a.y) * (ray.b.y - ray.a.y)) = rmag)
    (hsmag : Real.sqrt ((seg.b.x - seg.a.x) * (seg.b.x - seg.a.x) +
      (seg.b.y - seg.a.y) * (seg.b.y - seg.a.y)) = smag)
    (hrm : rmag ≠ 0) (hsm : smag ≠ 0)
    (hpar : ¬((ray.b.x - ray.a.x) / rmag = (seg.b.x - seg.a.x) / smag ∧
      (ray.b.y - ray.a.y) / rmag = (seg.b.y - seg.a.y) / smag))
    (hD : (seg.b.x - seg.a.x) * (ray.b.y - ray.a.y) -
      (seg.b.y - seg.a.y) * (ray.b.x - ray.a.x) ≠ 0)
    (hrdx : ray.b.x - ray.a.x ≠ 0)
    (ht2 : ((ray.b.x - ray.a.x) * (seg.a.y - ray.a.y) +
      (ray.b.y - ray.a.y) * (ray.a.x - seg.a.x)) /
      ((seg.b.x - seg.a.x) * (ray.b.y - ray.a.y) -
       (seg.b.y - seg.a.y) * (ray.b.x - ray.a.x)) = t2)
    (ht1 : (seg.a.x + (seg.b.x - seg.a.x) * t2 - ray.a.x) / (ray.b.x - ray.a.x) = t1) :
    getIntersection ray seg =
      if t1 < 0 then none
      else if t2 < 0 ∨ 1 < t2 then none
      else some ⟨JSNum.num (ray.a.x + (ray.b.x - ray.a.x) * t1),
        JSNum.num (ray.a.y + (ray.b.y - ray.a.y) * t1), JSNum.num t1⟩ := by
  unfold getIntersection
  dsimp only
  rw [hrmag, hsmag]
  simp only [JSNum.div_num_num _ _ hrm, JSNum.div_num_num _ _ hsm,
    JSNum.eqb_num_num, Bool.and_eq_true, decide_eq_true_eq]
  rw [if_neg hpar]
  rw [JSNum.div_num_num _ _ hD, ht2]
  simp only [JSNum.mul_num_num, JSNum.add_num_num, JSNum.sub_num_num]
  rw [JSNum.div_num_num _ _ hrdx, ht1]
  simp only [JSNum.ltb_num_num, decide_eq_true_eq, Bool.or_eq_true]
  by_cases h1 : t1 < 0
  · rw [if_pos h1, if_pos h1]
  · rw [if_neg h1, if_neg h1]
    by_cases h2 : t2 < 0 ∨ 1 < t2
    · rw [if_pos h2, if_pos h2]
    · rw [if_neg h2, if_neg h2]
      simp only [JSNum.mul_num_num, JSNum.add_num_num]

theorem JSNum.add_mul_eq_num (a b : ℝ) (T : JSNum) (x : ℝ)
    (h : (JSNum.num a).add ((JSNum.num b).mul T) = JSNum.num x) :
    ∃ t, T = JSNum.num t ∧ x = a + b * t := by
  cases T with
  | num t =>
    simp only [mul_num_num, add_num_num] at h
    injection h with hv
    exact ⟨t, rfl, hv.symm⟩
  | posInf =>
    simp only [mul_num_posInf] at h
    split_ifs at h <;>
      simp only [add_num_posInf, add_num_negInf, add_num_nan] at h <;> cases h
  | negInf =>
    simp only [mul_num_negInf] at h
    split_ifs at h <;>
      simp only [add_num_posInf, add_num_negInf, add_num_nan] at h <;> cases h
  | nan =>
    simp only [mul_num_nan, add_num_nan] at h
    cases h

theorem JSNum.div_eq_num (A : JSNum) (c t : ℝ) (h : A.div (JSNum.num c) = JSNum.num t) :
    ∃ u, A = JSNum.num u ∧ c ≠ 0 ∧ u / c = t := by
  cases A with
  | num u =>
    by_cases hc : c = 0
    · subst hc
      simp only [div_num_zero] at h
      split_ifs at h <;> cases h
    · rw [div_num_num _ _ hc] at h
      injection h with hv
      exact ⟨u, rfl, hc, hv⟩
  | posInf =>
    simp only [div_posInf_num] at h
    split_ifs at h <;> cases h
  | negInf =>
    simp only [div_negInf_num] at h
    split_ifs at h <;> cases h
  | nan =>
    simp only [div_nan_num] at h
    cases h

theorem JSNum.sub_eq_num (A : JSNum) (r x : ℝ) (h : A.sub (JSNum.num r) = JSNum.num x) :
    ∃ u, A = JSNum.num u ∧ x = u - r := by
  cases A with
  | num u =>
    simp only [sub_num_num] at h
    injection h with hv
    exact ⟨u, rfl, hv.symm⟩
  | posInf => simp only [sub_posInf_num] at h; cases h
  | negInf => simp only [sub_negInf_num] at h; cases h
  | nan => simp only [sub_nan] at h; cases h

/-- Any hit of `getIntersection` whose output coordinates are genuine
numbers has a real parameter `t1`, and a real segment parameter
`t2 ∈ [0, 1]`, with the output point at the line-line solution.  This is
the inversion lemma used for the boundary facts. -/
theorem getIntersection_finite_inv (ray seg : Seg) (h : JSHit)
    (hh : getIntersection ray seg = some h) (x y : ℝ)
    (hx : h.x = JSNum.num x) (hy : h.y = JSNum.num y) :
    ∃ t1 t2 : ℝ,
      (ray.b.x - ray.a.x) ≠ 0 ∧
      ((seg.b.x - seg.a.x) * (ray.b.y - ray.a.y) -
        (seg.b.y - seg.a.y) * (ray.b.x - ray.a.x)) ≠ 0 ∧
      t2 = ((ray.b.x - ray.a.x) * (seg.a.y - ray.a.y) +
        (ray.b.y - ray.a.y) * (ray.a.x - seg.a.x)) /
        ((seg.b.x - seg.a.x) * (ray.b.y - ray.a.y) -
         (seg.b.y - seg.a.y) * (ray.b.x - ray.a.x)) ∧
      t1 = (seg.a.x + (seg.b.x - seg.a.x) * t2 - ray.a.x) / (ray.b.x - ray.a.x) ∧
      0 ≤ t2 ∧ t2 ≤ 1 ∧ 0 ≤ t1 ∧
      x = ray.a.x + (ray.b.x - ray.a.x) * t1 ∧
      y = ray.a.y + (ray.b.y - ray.a.y) * t1 := by
  unfold getIntersection at hh
  dsimp only at hh
  split at hh
  · cases hh
  · split at hh
    · cases hh
    · split at hh
      · cases hh
      · rw [Option.some_inj] at hh
        subst hh
        dsimp only at hx hy
        rename_i hg1 hg2
        -- hx forces T1 to be a real number
        obtain ⟨t1, hT1, hxval⟩ := JSNum.add_mul_eq_num _ _ _ _ hx
        obtain ⟨t1y, hT1y, hyval⟩ := JSNum.add_mul_eq_num _ _ _ _ hy
        rw [hT1] at hT1y
        injection hT1y with hsame
        subst hsame
        -- peel T1 = (s_px + s_dx * T2 - r_px) / r_dx
        obtain ⟨u, hA, hrdx, ht1val⟩ := JSNum.div_eq_num _ _ _ hT1
        obtain ⟨w, hB, huval⟩ := JSNum.sub_eq_num _ _ _ hA
        obtain ⟨t2, hT2, hwval⟩ := JSNum.add_mul_eq_num _ _ _ _ hB
        obtain ⟨n2, hN2, hD, ht2val⟩ := JSNum.div_eq_num _ _ _ hT2
        injection hN2 with hn2
        refine ⟨t1, t2, hrdx, hD, ?_, ?_, ?_, ?_, ?_, hxval, hyval⟩
        · rw [← ht2val, hn2]
        · rw [← ht1val, huval, hwval]
        · -- 0 ≤ t2 from the unfired second guard
          rw [hT2] at hg2
          simp only [JSNum.ltb_num_num, Bool.or_eq_true, decide_eq_true_eq] at hg2
          push_neg at hg2
          exact hg2.1
        · rw [hT2] at hg2
          simp only [JSNum.ltb_num_num, Bool.or_eq_true, decide_eq_true_eq] at hg2
          push_neg at hg2
          exact hg2.2
        · rw [hT1] at hg1
          simp only [JSNum.ltb_num_num, decide_eq_true_eq] at hg1
          exact le_of_not_lt hg1

theorem hit_on_horizontal (ray : Seg) (ax ay bx : ℝ) (h : JSHit)
    (hh : getIntersection ray ⟨⟨ax, ay⟩, ⟨bx, ay⟩⟩ = some h) (x y : ℝ)
    (hx : h.x = JSNum.num x) (hy : h.y = JSNum.num y) :
    y = ay ∧ min ax bx ≤ x ∧ x ≤ max ax bx := by
  obtain ⟨t1, t2, hrdx, hD, ht2, ht1, h0, h1, _, hxv, hyv⟩ :=
    getIntersection_finite_inv ray _ h hh x y hx hy
  dsimp only at hrdx hD ht2 ht1 hxv hyv
  simp only [sub_self, zero_mul, mul_zero, sub_zero, add_zero] at hD ht2 ht1
  obtain ⟨hba, hQ⟩ := mul_ne_zero_iff.mp hD
  have hy2 : y = ay := by
    rw [hyv, ht1, ht2]
    field_simp
    ring
  have hx2 : x = ax + (bx - ax) * t2 := by
    rw [hxv, ht1]
    field_simp
  refine ⟨hy2, ?_, ?_⟩
  · rcases le_total ax bx with hab | hab
    · rw [min_eq_left hab]
      nlinarith
    · rw [min_eq_right hab]
      nlinarith
  · rcases le_total ax bx with hab | hab
    · rw [max_eq_right hab]
      nlinarith
    · rw [max_eq_left hab]
      nlinarith

theorem hit_on_vertical (ray : Seg) (ax ay by2 : ℝ) (h : JSHit)
    (hh : getIntersection ray ⟨⟨ax, ay⟩, ⟨ax, by2⟩⟩ = some h) (x y : ℝ)
    (hx : h.x = JSNum.num x) (hy : h.y = JSNum.num y) :
    x = ax ∧ min ay by2 ≤ y ∧ y ≤ max ay by2 := by
  obtain ⟨t1, t2, hrdx, hD, ht2, ht1, h0, h1, _, hxv, hyv⟩ :=
    getIntersection_finite_inv ray _ h hh x y hx hy
  dsimp only at hrdx hD ht2 ht1 hxv hyv
  simp only [sub_self, zero_mul, mul_zero, zero_sub, add_zero] at hD ht2 ht1
  have hD2 : (by2 - ay) * (ray.b.x - ray.a.x) ≠ 0 := fun hc => hD (by rw [hc, neg_zero])
  obtain ⟨hba, hP⟩ := mul_ne_zero_iff.mp hD2
  have hx2 : x = ax := by
    rw [hxv, ht1]
    field_simp
  have hy2 : y = ay + (by2 - ay) * t2 := by
    rw [hyv, ht1, ht2]
    field_simp
    ring
  refine ⟨hx2, ?_, ?_⟩
  · rcases le_total ay by2 with hab | hab
    · rw [min_eq_left hab]
      nlinarith
    · rw [min_eq_right hab]
      nlinarith
  · rcases le_total ay by2 with hab | hab
    · rw [max_eq_right hab]
      nlinarith
    · rw [max_eq_left hab]
      nlinarith

theorem castRay_on_boundary (pX pY xV yV θ : ℝ) (v : SightVertex)
    (hcast : castRay pX pY (borderSegments xV yV) θ = some v) (x y : ℝ)
    (hx : v.x = JSNum.num x) (hy : v.y = JSNum.num y) :
    onViewportBoundary xV yV x y := by
  unfold castRay at hcast
  dsimp only at hcast
  rw [Option.map_eq_some'] at hcast
  obtain ⟨h, hclosest, hveq⟩ := hcast
  subst hveq
  dsimp only at hx hy
  obtain ⟨s, hs, hint⟩ := closestHit_mem _ _ _ hclosest
  unfold borderSegments at hs
  simp only [List.mem_cons, List.not_mem_nil, or_false] at hs
  unfold onViewportBoundary
  have hW : (0:ℝ) < GAME_WIDTH := by norm_num [GAME_WIDTH]
  have hH : (0:ℝ) < GAME_HEIGHT := by norm_num [GAME_HEIGHT]
  rcases hs with rfl | rfl | rfl | rfl
  · obtain ⟨h1, h2, h3⟩ := hit_on_horizontal _ xV yV (xV + GAME_WIDTH) h hint x y hx hy
    rw [min_eq_left (by linarith)] at h2
    rw [max_eq_right (by linarith)] at h3
    exact Or.inl ⟨h1, h2, h3⟩
  · obtain ⟨h1, h2, h3⟩ := hit_on_vertical _ (xV + GAME_WIDTH) yV (yV + GAME_HEIGHT)
      h hint x y hx hy
    rw [min_eq_left (by linarith)] at h2
    rw [max_eq_right (by linarith)] at h3
    exact Or.inr (Or.inr (Or.inr ⟨h1, h2, h3⟩))
  · obtain ⟨h1, h2, h3⟩ := hit_on_horizontal _ (xV + GAME_WIDTH) (yV + GAME_HEIGHT) xV
      h hint x y hx hy
    rw [min_eq_right (by linarith)] at h2
    rw [max_eq_left (by linarith)] at h3
    exact Or.inr (Or.inl ⟨h1, h2, h3⟩)
  · obtain ⟨h1, h2, h3⟩ := hit_on_vertical _ xV (yV + GAME_HEIGHT) yV h hint x y hx hy
    rw [min_eq_right (by linarith)] at h2
    rw [max_eq_left (by linarith)] at h3
    exact Or.inr (Or.inr (Or.inl ⟨h1, h2, h3⟩))

theorem getIntersection_horiz_eval (pX pY a b d sx sy ex : ℝ)
    (ha : a ≠ 0) (hb : b ≠ 0) (hL : ex - sx ≠ 0)
    (hd : d = Real.sqrt (a * a + b * b)) (hdpos : 0 < d) :
    getIntersection ⟨⟨pX, pY⟩, ⟨pX + a / d, pY + b / d⟩⟩ ⟨⟨sx, sy⟩, ⟨ex, sy⟩⟩ =
      if (sy - pY) * d / b < 0 then none
      else if (a * (sy - pY) + b * (pX - sx)) / ((ex - sx) * b) < 0 ∨
          1 < (a * (sy - pY) + b * (pX - sx)) / ((ex - sx) * b) then none
      else some ⟨JSNum.num (pX + a * (sy - pY) / b), JSNum.num sy,
        JSNum.num ((sy - pY) * d / b)⟩ := by
  have hdne : d ≠ 0 := ne_of_gt hdpos
  rw [getIntersection_eval ⟨⟨pX, pY⟩, ⟨pX + a / d, pY + b / d⟩⟩ ⟨⟨sx, sy⟩, ⟨ex, sy⟩⟩
    1 |ex - sx| ((a * (sy - pY) + b * (pX - sx)) / ((ex - sx) * b))
    ((sy - pY) * d / b)
    (by dsimp only; rw [add_sub_cancel_left, add_sub_cancel_left]; exact unit_ray_mag a b d hd hdpos)
    (by dsimp only; rw [sub_self, mul_zero, add_zero, Real.sqrt_mul_self_eq_abs])
    (by norm_num)
    (abs_ne_zero.mpr hL)
    (by
      dsimp only
      simp only [add_sub_cancel_left, sub_self, div_one, zero_div]
      intro hc
      exact hb ((div_eq_zero_iff.mp hc.2).resolve_right hdne)
    )
    (by
      dsimp only
      simp only [add_sub_cancel_left, sub_self, zero_mul, sub_zero]
      exact mul_ne_zero hL (div_ne_zero hb hdne))
    (by dsimp only; rw [add_sub_cancel_left]; exact div_ne_zero ha hdne)
    (by
      dsimp only
      simp only [add_sub_cancel_left, sub_self, zero_mul, sub_zero]
      field_simp
      try ring)
    (by
      dsimp only
      simp only [add_sub_cancel_left]
      field_simp
      try ring)]
  dsimp only
  simp only [add_sub_cancel_left]
  have hxc : pX + a / d * ((sy - pY) * d / b) = pX + a * (sy - pY) / b := by
    field_simp
    try ring
  have hyc : pY + b / d * ((sy - pY) * d / b) = sy := by
    field_simp
    try ring
  rw [hxc, hyc]

theorem getIntersection_vert_eval (pX pY a b d sx sy ey : ℝ)
    (ha : a ≠ 0) (hM : ey - sy ≠ 0)
    (hd : d = Real.sqrt (a * a + b * b)) (hdpos : 0 < d) :
    getIntersection ⟨⟨pX, pY⟩, ⟨pX + a / d, pY + b / d⟩⟩ ⟨⟨sx, sy⟩, ⟨sx, ey⟩⟩ =
      if (sx - pX) * d / a < 0 then none
      else if (a * (sy - pY) + b * (pX - sx)) / (-((ey - sy) * a)) < 0 ∨
          1 < (a * (sy - pY) + b * (pX - sx)) / (-((ey - sy) * a)) then none
      else some ⟨JSNum.num sx, JSNum.num (pY + b * (sx - pX) / a),
        JSNum.num ((sx - pX) * d / a)⟩ := by
  have hdne : d ≠ 0 := ne_of_gt hdpos
  rw [getIntersection_eval ⟨⟨pX, pY⟩, ⟨pX + a / d, pY + b / d⟩⟩ ⟨⟨sx, sy⟩, ⟨sx, ey⟩⟩
    1 |ey - sy| ((a * (sy - pY) + b * (pX - sx)) / (-((ey - sy) * a)))
    ((sx - pX) * d / a)
    (by dsimp only; rw [add_sub_cancel_left, add_sub_cancel_left]; exact unit_ray_mag a b d hd hdpos)
    (by dsimp only; rw [sub_self, mul_zero, zero_add, Real.sqrt_mul_self_eq_abs])
    (by norm_num)
    (abs_ne_zero.mpr hM)
    (by
      dsimp only
      simp only [add_sub_cancel_left, sub_self, div_one, zero_div]
      intro hc
      exact ha ((div_eq_zero_iff.mp hc.1).resolve_right hdne)
    )
    (by
      dsimp only
      simp only [add_sub_cancel_left, sub_self, zero_mul, zero_sub]
      intro hc
      rw [neg_eq_zero] at hc
      exact (mul_ne_zero hM (div_ne_zero ha hdne)) hc)
    (by dsimp only; rw [add_sub_cancel_left]; exact div_ne_zero ha hdne)
    (by
      dsimp only
      simp only [add_sub_cancel_left, sub_self, zero_mul, zero_sub]
      field_simp
      try ring)
    (by
      dsimp only
      simp only [add_sub_cancel_left, sub_self, zero_mul, add_zero]
      field_simp
      try ring)]
  dsimp only
  simp only [add_sub_cancel_left]
  have hxc : pX + a / d * ((sx - pX) * d / a) = sx := by
    field_simp
    try ring
  have hyc : pY + b / d * ((sx - pX) * d / a) = pY + b * (sx - pX) / a := by
    field_simp
    try ring
  rw [hxc, hyc]

theorem closest_step_nonehit (ray : Seg) (s : Seg) (acc : Option JSHit)
    (hi : getIntersection ray s = none) :
    (match getIntersection ray s with
     | none => acc
     | some i =>
       match acc with
       | none => some i
       | some c => if i.param.ltb c.param = true then some i else acc) = acc := by
  rw [hi]

theorem closest_step_firsthit (ray : Seg) (s : Seg) (i : JSHit)
    (hi : getIntersection ray s = some i) :
    (match getIntersection ray s with
     | none => (none : Option JSHit)
     | some i2 =>
       match (none : Option JSHit) with
       | none => some i2
       | some c => if i2.param.ltb c.param = true then some i2 else none) = some i := by
  rw [hi]

theorem closest_step_keep2 (ray : Seg) (s : Seg) (i c : JSHit)
    (hi : getIntersection ray s = some i) (hlt : i.param.ltb c.param = false) :
    (match getIntersection ray s with
     | none => some c
     | some i2 =>
       match (some c : Option JSHit) with
       | none => some i2
       | some c2 => if i2.param.ltb c2.param = true then some i2 else some c) = some c := by
  rw [hi]
  show (if i.param.ltb c.param = true then some i else some c) = some c
  rw [if_neg (by rw [hlt]; exact Bool.false_ne_true)]

theorem castRay_corner_TL (pX pY xV yV : ℝ)
    (hx1 : xV < pX) (hx2 : pX < xV + GAME_WIDTH)
    (hy1 : yV < pY) (hy2 : pY < yV + GAME_HEIGHT) :
    castRay pX pY (borderSegments xV yV) (atan2 (yV - pY) (xV - pX)) =
      some ⟨JSNum.num xV, JSNum.num yV,
        JSNum.num (Real.sqrt ((xV - pX) * (xV - pX) + (yV - pY) * (yV - pY))),
        atan2 (yV - pY) (xV - pX)⟩ := by
  have hW : (0:ℝ) < GAME_WIDTH := by norm_num [GAME_WIDTH]
  have hH : (0:ℝ) < GAME_HEIGHT := by norm_num [GAME_HEIGHT]
  have ha : xV - pX < 0 := by linarith
  have hb : yV - pY < 0 := by linarith
  have hane : xV - pX ≠ 0 := ne_of_lt ha
  have hbne : yV - pY ≠ 0 := ne_of_lt hb
  have hdpos : 0 < Real.sqrt ((xV - pX) * (xV - pX) + (yV - pY) * (yV - pY)) :=
    Real.sqrt_pos.mpr (by nlinarith)
  set d := Real.sqrt ((xV - pX) * (xV - pX) + (yV - pY) * (yV - pY)) with hd_def
  have hdne : d ≠ 0 := ne_of_gt hdpos
  obtain ⟨hcos, hsin⟩ := cos_sin_atan2 (yV - pY) (xV - pX) (fun hc => hane hc.1)
  rw [← hd_def] at hcos hsin
  have htop := getIntersection_horiz_eval pX pY (xV - pX) (yV - pY) d
    xV yV (xV + GAME_WIDTH) hane hbne
    (by rw [add_sub_cancel_left]; exact ne_of_gt hW) hd_def hdpos
  rw [show (yV - pY) * d / (yV - pY) = d by
      rw [mul_comm, mul_div_assoc, div_self hbne, mul_one],
    if_neg (not_lt.mpr (le_of_lt hdpos)),
    show ((xV - pX) * (yV - pY) + (yV - pY) * (pX - xV)) /
        ((xV + GAME_WIDTH - xV) * (yV - pY)) = 0 by
      rw [show (xV - pX) * (yV - pY) + (yV - pY) * (pX - xV) = 0 by ring, zero_div],
    if_neg (by norm_num),
    show pX + (xV - pX) * (yV - pY) / (yV - pY) = xV by
      rw [mul_div_assoc, div_self hbne, mul_one]; ring] at htop
  have hright := getIntersection_vert_eval pX pY (xV - pX) (yV - pY) d
    (xV + GAME_WIDTH) yV (yV + GAME_HEIGHT) hane
    (by rw [add_sub_cancel_left]; exact ne_of_gt hH) hd_def hdpos
  rw [if_pos (div_neg_of_pos_of_neg
    (mul_pos (by linarith : (0:ℝ) < xV + GAME_WIDTH - pX) hdpos) ha)] at hright
  have hbottom := getIntersection_horiz_eval pX pY (xV - pX) (yV - pY) d
    (xV + GAME_WIDTH) (yV + GAME_HEIGHT) xV hane hbne
    (by intro hc; apply ne_of_gt hW; linarith [sub_eq_zero.mp hc]) hd_def hdpos
  rw [if_pos (div_neg_of_pos_of_neg
    (mul_pos (by linarith : (0:ℝ) < yV + GAME_HEIGHT - pY) hdpos) hb)] at hbottom
  have hleft := getIntersection_vert_eval pX pY (xV - pX) (yV - pY) d
    xV (yV + GAME_HEIGHT) yV hane
    (by intro hc; apply ne_of_gt hH; linarith [sub_eq_zero.mp hc]) hd_def hdpos
  rw [show (xV - pX) * d / (xV - pX) = d by
      rw [mul_comm, mul_div_assoc, div_self hane, mul_one],
    if_neg (not_lt.mpr (le_of_lt hdpos)),
    show ((xV - pX) * (yV + GAME_HEIGHT - pY) + (yV - pY) * (pX - xV)) /
        (-((yV - (yV + GAME_HEIGHT)) * (xV - pX))) = 1 by
      rw [show (xV - pX) * (yV + GAME_HEIGHT - pY) + (yV - pY) * (pX - xV) =
          GAME_HEIGHT * (xV - pX) by ring,
        show -((yV - (yV + GAME_HEIGHT)) * (xV - pX)) = GAME_HEIGHT * (xV - pX) by ring]
      exact div_self (mul_ne_zero (ne_of_gt hH) hane),
    if_neg (by norm_num),
    show pY + (yV - pY) * (xV - pX) / (xV - pX) = yV by
      rw [mul_div_assoc, div_self hane, mul_one]; ring] at hleft
  unfold castRay
  dsimp only
  rw [hcos, hsin]
  unfold closestHit borderSegments
  rw [List.foldl_cons, List.foldl_cons, List.foldl_cons, List.foldl_cons,
    List.foldl_nil]
  rw [closest_step_firsthit _ _ _ htop]
  rw [closest_step_nonehit _ _ _ hright]
  rw [closest_step_nonehit _ _ _ hbottom]
  rw [closest_step_keep2 _ _ _ _ hleft (by
    simp only [JSNum.ltb_num_num]
    exact decide_eq_false (lt_irrefl d))]
  rfl

theorem castRay_corner_TR (pX pY xV yV : ℝ)
    (hx1 : xV < pX) (hx2 : pX < xV + GAME_WIDTH)
    (hy1 : yV < pY) (hy2 : pY < yV + GAME_HEIGHT) :
    castRay pX pY (borderSegments xV yV) (atan2 (yV - pY) (xV + GAME_WIDTH - pX)) =
      some ⟨JSNum.num (xV + GAME_WIDTH), JSNum.num yV,
        JSNum.num (Real.sqrt ((xV + GAME_WIDTH - pX) * (xV + GAME_WIDTH - pX) +
          (yV - pY) * (yV - pY))),
        atan2 (yV - pY) (xV + GAME_WIDTH - pX)⟩ := by
  have hW : (0:ℝ) < GAME_WIDTH := by norm_num [GAME_WIDTH]
  have hH : (0:ℝ) < GAME_HEIGHT := by norm_num [GAME_HEIGHT]
  have ha : 0 < xV + GAME_WIDTH - pX := by linarith
  have hb : yV - pY < 0 := by linarith
  have hane : xV + GAME_WIDTH - pX ≠ 0 := ne_of_gt ha
  have hbne : yV - pY ≠ 0 := ne_of_lt hb
  have hdpos : 0 < Real.sqrt ((xV + GAME_WIDTH - pX) * (xV + GAME_WIDTH - pX) +
      (yV - pY) * (yV - pY)) :=
    Real.sqrt_pos.mpr (by nlinarith)
  set d := Real.sqrt ((xV + GAME_WIDTH - pX) * (xV + GAME_WIDTH - pX) +
    (yV - pY) * (yV - pY)) with hd_def
  have hdne : d ≠ 0 := ne_of_gt hdpos
  obtain ⟨hcos, hsin⟩ := cos_sin_atan2 (yV - pY) (xV + GAME_WIDTH - pX)
    (fun hc => hane hc.1)
  rw [← hd_def] at hcos hsin
  have htop := getIntersection_horiz_eval pX pY (xV + GAME_WIDTH - pX) (yV - pY) d
    xV yV (xV + GAME_WIDTH) hane hbne
    (by rw [add_sub_cancel_left]; exact ne_of_gt hW) hd_def hdpos
  rw [show (yV - pY) * d / (yV - pY) = d by
      rw [mul_comm, mul_div_assoc, div_self hbne, mul_one],
    if_neg (not_lt.mpr (le_of_lt hdpos)),
    show ((xV + GAME_WIDTH - pX) * (yV - pY) + (yV - pY) * (pX - xV)) /
        ((xV + GAME_WIDTH - xV) * (yV - pY)) = 1 by
      rw [show (xV + GAME_WIDTH - pX) * (yV - pY) + (yV - pY) * (pX - xV) =
          GAME_WIDTH * (yV - pY) by ring,
        show (xV + GAME_WIDTH - xV) * (yV - pY) = GAME_WIDTH * (yV - pY) by ring]
      exact div_self (mul_ne_zero (ne_of_gt hW) hbne),
    if_neg (by norm_num),
    show pX + (xV + GAME_WIDTH - pX) * (yV - pY) / (yV - pY) = xV + GAME_WIDTH by
      rw [mul_div_assoc, div_self hbne, mul_one]; ring] at htop
  have hright := getIntersection_vert_eval pX pY (xV + GAME_WIDTH - pX) (yV - pY) d
    (xV + GAME_WIDTH) yV (yV + GAME_HEIGHT) hane
    (by rw [add_sub_cancel_left]; exact ne_of_gt hH) hd_def hdpos
  rw [show (xV + GAME_WIDTH - pX) * d / (xV + GAME_WIDTH - pX) = d by
      rw [mul_comm, mul_div_assoc, div_self hane, mul_one],
    if_neg (not_lt.mpr (le_of_lt hdpos)),
    show ((xV + GAME_WIDTH - pX) * (yV - pY) + (yV - pY) * (pX - (xV + GAME_WIDTH))) /
        (-((yV + GAME_HEIGHT - yV) * (xV + GAME_WIDTH - pX))) = 0 by
      rw [show (xV + GAME_WIDTH - pX) * (yV - pY) +
          (yV - pY) * (pX - (xV + GAME_WIDTH)) = 0 by ring, zero_div],
    if_neg (by norm_num),
    show pY + (yV - pY) * (xV + GAME_WIDTH - pX) / (xV + GAME_WIDTH - pX) = yV by
      rw [mul_div_assoc, div_self hane, mul_one]; ring] at hright
  have hbottom := getIntersection_horiz_eval pX pY (xV + GAME_WIDTH - pX) (yV - pY) d
    (xV + GAME_WIDTH) (yV + GAME_HEIGHT) xV hane hbne
    (by intro hc; apply ne_of_gt hW; linarith [sub_eq_zero.mp hc]) hd_def hdpos
  rw [if_pos (div_neg_of_pos_of_neg
    (mul_pos (by linarith : (0:ℝ) < yV + GAME_HEIGHT - pY) hdpos) hb)] at hbottom
  have hleft := getIntersection_vert_eval pX pY (xV + GAME_WIDTH - pX) (yV - pY) d
    xV (yV + GAME_HEIGHT) yV hane
    (by intro hc; apply ne_of_gt hH; linarith [sub_eq_zero.mp hc]) hd_def hdpos
  rw [if_pos (div_neg_of_neg_of_pos
    (mul_neg_of_neg_of_pos (by linarith : xV - pX < 0) hdpos) ha)] at hleft
  unfold castRay
  dsimp only
  rw [hcos, hsin]
  unfold closestHit borderSegments
  rw [List.foldl_cons, List.foldl_cons, List.foldl_cons, List.foldl_cons,
    List.foldl_nil]
  rw [closest_step_firsthit _ _ _ htop]
  rw [closest_step_keep2 _ _ _ _ hright (by
    simp only [JSNum.ltb_num_num]
    exact decide_eq_false (lt_irrefl d))]
  rw [closest_step_nonehit _ _ _ hbottom]
  rw [closest_step_nonehit _ _ _ hleft]
  rfl

theorem castRay_corner_BR (pX pY xV yV : ℝ)
    (hx1 : xV < pX) (hx2 : pX < xV + GAME_WIDTH)
    (hy1 : yV < pY) (hy2 : pY < yV + GAME_HEIGHT) :
    castRay pX pY (borderSegments xV yV)
        (atan2 (yV + GAME_HEIGHT - pY) (xV + GAME_WIDTH - pX)) =
      some ⟨JSNum.num (xV + GAME_WIDTH), JSNum.num (yV + GAME_HEIGHT),
        JSNum.num (Real.sqrt ((xV + GAME_WIDTH - pX) * (xV + GAME_WIDTH - pX) +
          (yV + GAME_HEIGHT - pY) * (yV + GAME_HEIGHT - pY))),
        atan2 (yV + GAME_HEIGHT - pY) (xV + GAME_WIDTH - pX)⟩ := by
  have hW : (0:ℝ) < GAME_WIDTH := by norm_num [GAME_WIDTH]
  have hH : (0:ℝ) < GAME_HEIGHT := by norm_num [GAME_HEIGHT]
  have ha : 0 < xV + GAME_WIDTH - pX := by linarith
  have hb : 0 < yV + GAME_HEIGHT - pY := by linarith
  have hane : xV + GAME_WIDTH - pX ≠ 0 := ne_of_gt ha
  have hbne : yV + GAME_HEIGHT - pY ≠ 0 := ne_of_gt hb
  have hdpos : 0 < Real.sqrt ((xV + GAME_WIDTH - pX) * (xV + GAME_WIDTH - pX) +
      (yV + GAME_HEIGHT - pY) * (yV + GAME_HEIGHT - pY)) :=
    Real.sqrt_pos.mpr (by nlinarith)
  set d := Real.sqrt ((xV + GAME_WIDTH - pX) * (xV + GAME_WIDTH - pX) +
    (yV + GAME_HEIGHT - pY) * (yV + GAME_HEIGHT - pY)) with hd_def
  have hdne : d ≠ 0 := ne_of_gt hdpos
  obtain ⟨hcos, hsin⟩ := cos_sin_atan2 (yV + GAME_HEIGHT - pY) (xV + GAME_WIDTH - pX)
    (fun hc => hane hc.1)
  rw [← hd_def] at hcos hsin
  have htop := getIntersection_horiz_eval pX pY (xV + GAME_WIDTH - pX)
    (yV + GAME_HEIGHT - pY) d xV yV (xV + GAME_WIDTH) hane hbne
    (by rw [add_sub_cancel_left]; exact ne_of_gt hW) hd_def hdpos
  rw [if_pos (div_neg_of_neg_of_pos
    (mul_neg_of_neg_of_pos (by linarith : yV - pY < 0) hdpos) hb)] at htop
  have hright := getIntersection_vert_eval pX pY (xV + GAME_WIDTH - pX)
    (yV + GAME_HEIGHT - pY) d (xV + GAME_WIDTH) yV (yV + GAME_HEIGHT) hane
    (by rw [add_sub_cancel_left]; exact ne_of_gt hH) hd_def hdpos
  rw [show (xV + GAME_WIDTH - pX) * d / (xV + GAME_WIDTH - pX) = d by
      rw [mul_comm, mul_div_assoc, div_self hane, mul_one],
    if_neg (not_lt.mpr (le_of_lt hdpos)),
    show ((xV + GAME_WIDTH - pX) * (yV - pY) +
        (yV + GAME_HEIGHT - pY) * (pX - (xV + GAME_WIDTH))) /
        (-((yV + GAME_HEIGHT - yV) * (xV + GAME_WIDTH - pX))) = 1 by
      rw [show (xV + GAME_WIDTH - pX) * (yV - pY) +
          (yV + GAME_HEIGHT - pY) * (pX - (xV + GAME_WIDTH)) =
          -(GAME_HEIGHT * (xV + GAME_WIDTH - pX)) by ring,
        show -((yV + GAME_HEIGHT - yV) * (xV + GAME_WIDTH - pX)) =
          -(GAME_HEIGHT * (xV + GAME_WIDTH - pX)) by ring]
      exact div_self (neg_ne_zero.mpr (mul_ne_zero (ne_of_gt hH) hane)),
    if_neg (by norm_num),
    show pY + (yV + GAME_HEIGHT - pY) * (xV + GAME_WIDTH - pX) / (xV + GAME_WIDTH - pX) =
        yV + GAME_HEIGHT by
      rw [mul_div_assoc, div_self hane, mul_one]; ring] at hright
  have hbottom := getIntersection_horiz_eval pX pY (xV + GAME_WIDTH - pX)
    (yV + GAME_HEIGHT - pY) d (xV + GAME_WIDTH) (yV + GAME_HEIGHT) xV hane hbne
    (by intro hc; apply ne_of_gt hW; linarith [sub_eq_zero.mp hc]) hd_def hdpos
  rw [show (yV + GAME_HEIGHT - pY) * d / (yV + GAME_HEIGHT - pY) = d by
      rw [mul_comm, mul_div_assoc, div_self hbne, mul_one],
    if_neg (not_lt.mpr (le_of_lt hdpos)),
    show ((xV + GAME_WIDTH - pX) * (yV + GAME_HEIGHT - pY) +
        (yV + GAME_HEIGHT - pY) * (pX - (xV + GAME_WIDTH))) /
        ((xV - (xV + GAME_WIDTH)) * (yV + GAME_HEIGHT - pY)) = 0 by
      rw [show (xV + GAME_WIDTH - pX) * (yV + GAME_HEIGHT - pY) +
          (yV + GAME_HEIGHT - pY) * (pX - (xV + GAME_WIDTH)) = 0 by ring, zero_div],
    if_neg (by norm_num),
    show pX + (xV + GAME_WIDTH - pX) * (yV + GAME_HEIGHT - pY) / (yV + GAME_HEIGHT - pY) =
        xV + GAME_WIDTH by
      rw [mul_div_assoc, div_self hbne, mul_one]; ring] at hbottom
  have hleft := getIntersection_vert_eval pX pY (xV + GAME_WIDTH - pX)
    (yV + GAME_HEIGHT - pY) d xV (yV + GAME_HEIGHT) yV hane
    (by intro hc; apply ne_of_gt hH; linarith [sub_eq_zero.mp hc]) hd_def hdpos
  rw [if_pos (div_neg_of_neg_of_pos
    (mul_neg_of_neg_of_pos (by linarith : xV - pX < 0) hdpos) ha)] at hleft
  unfold castRay
  dsimp only
  rw [hcos, hsin]
  unfold closestHit borderSegments
  rw [List.foldl_cons, List.foldl_cons, List.foldl_cons, List.foldl_cons,
    List.foldl_nil]
  rw [closest_step_nonehit _ _ _ htop]
  rw [closest_step_firsthit _ _ _ hright]
  rw [closest_step_keep2 _ _ _ _ hbottom (by
    simp only [JSNum.ltb_num_num]
    exact decide_eq_false (lt_irrefl d))]
  rw [closest_step_nonehit _ _ _ hleft]
  rfl

theorem castRay_corner_BL (pX pY xV yV : ℝ)
    (hx1 : xV < pX) (hx2 : pX < xV + GAME_WIDTH)
    (hy1 : yV < pY) (hy2 : pY < yV + GAME_HEIGHT) :
    castRay pX pY (borderSegments xV yV)
        (atan2 (yV + GAME_HEIGHT - pY) (xV - pX)) =
      some ⟨JSNum.num xV, JSNum.num (yV + GAME_HEIGHT),
        JSNum.num (Real.sqrt ((xV - pX) * (xV - pX) +
          (yV + GAME_HEIGHT - pY) * (yV + GAME_HEIGHT - pY))),
        atan2 (yV + GAME_HEIGHT - pY) (xV - pX)⟩ := by
  have hW : (0:ℝ) < GAME_WIDTH := by norm_num [GAME_WIDTH]
  have hH : (0:ℝ) < GAME_HEIGHT := by norm_num [GAME_HEIGHT]
  have ha : xV - pX < 0 := by linarith
  have hb : 0 < yV + GAME_HEIGHT - pY := by linarith
  have hane : xV - pX ≠ 0 := ne_of_lt ha
  have hbne : yV + GAME_HEIGHT - pY ≠ 0 := ne_of_gt hb
  have hdpos : 0 < Real.sqrt ((xV - pX) * (xV - pX) +
      (yV + GAME_HEIGHT - pY) * (yV + GAME_HEIGHT - pY)) :=
    Real.sqrt_pos.mpr (by nlinarith)
  set d := Real.sqrt ((xV - pX) * (xV - pX) +
    (yV + GAME_HEIGHT - pY) * (yV + GAME_HEIGHT - pY)) with hd_def
  have hdne : d ≠ 0 := ne_of_gt hdpos
  obtain ⟨hcos, hsin⟩ := cos_sin_atan2 (yV + GAME_HEIGHT - pY) (xV - pX)
    (fun hc => hane hc.1)
  rw [← hd_def] at hcos hsin
  have htop := getIntersection_horiz_eval pX pY (xV - pX) (yV + GAME_HEIGHT - pY) d
    xV yV (xV + GAME_WIDTH) hane hbne
    (by rw [add_sub_cancel_left]; exact ne_of_gt hW) hd_def hdpos
  rw [if_pos (div_neg_of_neg_of_pos
    (mul_neg_of_neg_of_pos (by linarith : yV - pY < 0) hdpos) hb)] at htop
  have hright := getIntersection_vert_eval pX pY (xV - pX) (yV + GAME_HEIGHT - pY) d
    (xV + GAME_WIDTH) yV (yV + GAME_HEIGHT) hane
    (by rw [add_sub_cancel_left]; exact ne_of_gt hH) hd_def hdpos
  rw [if_pos (div_neg_of_pos_of_neg
    (mul_pos (by linarith : (0:ℝ) < xV + GAME_WIDTH - pX) hdpos) ha)] at hright
  have hbottom := getIntersection_horiz_eval pX pY (xV - pX) (yV + GAME_HEIGHT - pY) d
    (xV + GAME_WIDTH) (yV + GAME_HEIGHT) xV hane hbne
    (by intro hc; apply ne_of_gt hW; linarith [sub_eq_zero.mp hc]) hd_def hdpos
  rw [show (yV + GAME_HEIGHT - pY) * d / (yV + GAME_HEIGHT - pY) = d by
      rw [mul_comm, mul_div_assoc, div_self hbne, mul_one],
    if_neg (not_lt.mpr (le_of_lt hdpos)),
    show ((xV - pX) * (yV + GAME_HEIGHT - pY) +
        (yV + GAME_HEIGHT - pY) * (pX - (xV + GAME_WIDTH))) /
        ((xV - (xV + GAME_WIDTH)) * (yV + GAME_HEIGHT - pY)) = 1 by
      rw [show (xV - pX) * (yV + GAME_HEIGHT - pY) +
          (yV + GAME_HEIGHT - pY) * (pX - (xV + GAME_WIDTH)) =
          -(GAME_WIDTH * (yV + GAME_HEIGHT - pY)) by ring,
        show (xV - (xV + GAME_WIDTH)) * (yV + GAME_HEIGHT - pY) =
          -(GAME_WIDTH * (yV + GAME_HEIGHT - pY)) by ring]
      exact div_self (neg_ne_zero.mpr (mul_ne_zero (ne_of_gt hW) hbne)),
    if_neg (by norm_num),
    show pX + (xV - pX) * (yV + GAME_HEIGHT - pY) / (yV + GAME_HEIGHT - pY) = xV by
      rw [mul_div_assoc, div_self hbne, mul_one]; ring] at hbottom
  have hleft := getIntersection_vert_eval pX pY (xV - pX) (yV + GAME_HEIGHT - pY) d
    xV (yV + GAME_HEIGHT) yV hane
    (by intro hc; apply ne_of_gt hH; linarith [sub_eq_zero.mp hc]) hd_def hdpos
  rw [show (xV - pX) * d / (xV - pX) = d by
      rw [mul_comm, mul_div_assoc, div_self hane, mul_one],
    if_neg (not_lt.mpr (le_of_lt hdpos)),
    show ((xV - pX) * (yV + GAME_HEIGHT - pY) + (yV + GAME_HEIGHT - pY) * (pX - xV)) /
        (-((yV - (yV + GAME_HEIGHT)) * (xV - pX))) = 0 by
      rw [show (xV - pX) * (yV + GAME_HEIGHT - pY) +
          (yV + GAME_HEIGHT - pY) * (pX - xV) = 0 by ring, zero_div],
    if_neg (by norm_num),
    show pY + (yV + GAME_HEIGHT - pY) * (xV - pX) / (xV - pX) = yV + GAME_HEIGHT by
      rw [mul_div_assoc, div_self hane, mul_one]; ring] at hleft
  unfold castRay
  dsimp only
  rw [hcos, hsin]
  unfold closestHit borderSegments
  rw [List.foldl_cons, List.foldl_cons, List.foldl_cons, List.foldl_cons,
    List.foldl_nil]
  rw [closest_step_nonehit _ _ _ htop]
  rw [closest_step_nonehit _ _ _ hright]
  rw [closest_step_firsthit _ _ _ hbottom]
  rw [closest_step_keep2 _ _ _ _ hleft (by
    simp only [JSNum.ltb_num_num]
    exact decide_eq_false (lt_irrefl d))]
  rfl

theorem mem_collect_fold_plus (pX pY : ℝ) :
    ∀ (pts : List Pt) (acc : List ℝ) (pt : Pt), pt ∈ pts →
      atan2 (pt.y - pY) (pt.x - pX) + 0.00001 ∈ pts.foldl (fun acc pt =>
        let angle := atan2 (pt.y - pY) (pt.x - pX)
        insertAngle (insertAngle (insertAngle acc (angle - 0.00001)) angle)
          (angle + 0.00001)) acc := by
  intro pts
  induction pts with
  | nil => intro acc pt h; cases h
  | cons q rest ih =>
    intro acc pt h
    rw [List.foldl_cons]
    rcases List.mem_cons.mp h with rfl | hmem
    · apply collectAngles_fold_mono
      exact mem_insertAngle_self _ _
    · exact ih _ pt hmem

theorem mem_collectAngles_plus (pX pY : ℝ) (pts : List Pt) (pt : Pt) (hpt : pt ∈ pts) :
    atan2 (pt.y - pY) (pt.x - pX) + 0.00001 ∈ collectAngles pX pY pts := by
  unfold collectAngles
  exact mem_collect_fold_plus pX pY pts [] pt hpt

theorem tanEps_bounds : 0 < Real.tan 0.00001 ∧ Real.tan 0.00001 < 1 := by
  have hpi : (3:ℝ) < Real.pi := Real.pi_gt_three
  have h1 : (0:ℝ) < 0.00001 := by norm_num
  have hcos : 0 < Real.cos 0.00001 :=
    Real.cos_pos_of_mem_Ioo ⟨by linarith, by linarith⟩
  have hsin : 0 < Real.sin 0.00001 :=
    Real.sin_pos_of_pos_of_lt_pi h1 (by linarith)
  constructor
  · rw [Real.tan_eq_sin_div_cos]
    exact div_pos hsin hcos
  · rw [Real.tan_eq_sin_div_cos, div_lt_one hcos]
    have hs : Real.sin 0.00001 < 0.00001 := Real.sin_lt h1
    have hc : 1 - (0.00001:ℝ) ^ 2 / 2 ≤ Real.cos 0.00001 :=
      Real.one_sub_sq_div_two_le_cos
    nlinarith

theorem pXC8_bounds : 920 < pXC8 ∧ pXC8 < 1280 := by
  obtain ⟨h0, h1⟩ := tanEps_bounds
  unfold pXC8
  constructor
  · nlinarith
  · nlinarith

theorem atan2_BR_c8 :
    atan2 ((0:ℝ) + GAME_HEIGHT - 360) ((0:ℝ) + GAME_WIDTH - pXC8) =
      Real.pi / 2 - 0.00001 := by
  have hpi : (3:ℝ) < Real.pi := Real.pi_gt_three
  have hcos : 0 < Real.cos 0.00001 :=
    Real.cos_pos_of_mem_Ioo ⟨by linarith, by linarith⟩
  have hcne : Real.cos 0.00001 ≠ 0 := ne_of_gt hcos
  rw [show (0:ℝ) + GAME_HEIGHT - 360 = 360 by norm_num [GAME_HEIGHT],
    show (0:ℝ) + GAME_WIDTH - pXC8 = 360 * Real.tan 0.00001 by
      simp only [GAME_WIDTH, pXC8]; ring]
  unfold atan2
  have hz : (⟨360 * Real.tan 0.00001, 360⟩ : ℂ) =
      ↑(360 / Real.cos 0.00001) *
        (Complex.cos ↑(Real.pi / 2 - 0.00001) +
          Complex.sin ↑(Real.pi / 2 - 0.00001) * Complex.I) := by
    rw [← Complex.ofReal_cos, ← Complex.ofReal_sin,
      Real.cos_pi_div_two_sub, Real.sin_pi_div_two_sub]
    apply Complex.ext
    · simp only [Complex.mul_re, Complex.add_re, Complex.ofReal_re, Complex.mul_im,
        Complex.add_im, Complex.ofReal_im, Complex.I_re, Complex.I_im,
        Complex.mul_I_re, Complex.mul_I_im]
      rw [Real.tan_eq_sin_div_cos]
      field_simp
      try ring
    · simp only [Complex.mul_re, Complex.add_re, Complex.ofReal_re, Complex.mul_im,
        Complex.add_im, Complex.ofReal_im, Complex.I_re, Complex.I_im,
        Complex.mul_I_re, Complex.mul_I_im]
      field_simp
      try ring
  rw [hz]
  exact Complex.arg_mul_cos_add_sin_mul_I (div_pos (by norm_num) hcos)
    ⟨by linarith, by linarith⟩

theorem getIntersection_top_nan_vert (p : ℝ) (h0 : 0 < p) (h1 : p < 1280) :
    getIntersection ⟨⟨p, 360⟩, ⟨p + 0, 360 + 1⟩⟩ ⟨⟨0, 0⟩, ⟨0 + GAME_WIDTH, 0⟩⟩ =
      some ⟨JSNum.nan, JSNum.nan, JSNum.nan⟩ := by
  unfold getIntersection
  dsimp only
  simp only [GAME_WIDTH]
  simp only [show p + 0 - p = (0:ℝ) from by ring,
    show (360:ℝ) + 1 - 360 = 1 from by norm_num,
    show (0:ℝ) + 1280 - 0 = 1280 from by norm_num,
    show (0:ℝ) - 0 = 0 from by norm_num]
  rw [show (0:ℝ) * 0 + 1 * 1 = 1 by norm_num,
    show (1280:ℝ) * 1280 + 0 * 0 = 1280 ^ 2 by norm_num,
    Real.sqrt_one, Real.sqrt_sq (by norm_num : (0:ℝ) ≤ 1280)]
  rw [JSNum.div_num_num 0 1 (by norm_num), JSNum.div_num_num 1280 1280 (by norm_num)]
  rw [if_neg (by
    simp only [JSNum.eqb_num_num]
    rw [Bool.and_eq_true]
    intro hc
    have := of_decide_eq_true hc.1
    norm_num at this)]
  rw [show (0:ℝ) * (0 - 360) + 1 * (p - 0) = p from by ring,
    show (1280:ℝ) * 1 - 0 * 0 = 1280 from by norm_num,
    JSNum.div_num_num p 1280 (by norm_num)]
  simp only [JSNum.mul_num_num, JSNum.add_num_num, JSNum.sub_num_num]
  rw [show (0:ℝ) + 1280 * (p / 1280) - p = 0 from by field_simp]
  rw [show JSNum.div (JSNum.num 0) (JSNum.num 0) = JSNum.nan from by
    rw [JSNum.div_num_zero]
    norm_num]
  rw [if_neg (by rw [JSNum.ltb_nan]; exact Bool.false_ne_true)]
  rw [if_neg (by
    rw [Bool.or_eq_true]
    simp only [JSNum.ltb_num_num]
    intro hc
    rcases hc with hc | hc
    · have := of_decide_eq_true hc
      have hnn : 0 ≤ p / 1280 := div_nonneg (le_of_lt h0) (by norm_num)
      linarith
    · have := of_decide_eq_true hc
      have hlt : p / 1280 < 1 := (div_lt_one (by norm_num)).mpr h1
      linarith)]
  simp only [JSNum.mul_num_nan, JSNum.add_num_nan]

theorem castRay_pi_div_two_c8 :
    castRay pXC8 360 (borderSegments 0 0) (Real.pi / 2) =
      some ⟨JSNum.nan, JSNum.nan, JSNum.nan, Real.pi / 2⟩ := by
  obtain ⟨hlo, hhi⟩ := pXC8_bounds
  unfold castRay
  dsimp only
  rw [Real.cos_pi_div_two, Real.sin_pi_div_two]
  have hclosest : closestHit ⟨⟨pXC8, 360⟩, ⟨pXC8 + 0, 360 + 1⟩⟩ (borderSegments 0 0) =
      some ⟨JSNum.nan, JSNum.nan, JSNum.nan⟩ := by
    unfold closestHit borderSegments
    rw [List.foldl_cons, getIntersection_top_nan_vert pXC8 (by linarith) hhi]
    exact closestHit_fold_keep_nan _ _ rfl _
  rw [hclosest]
  rfl

theorem pi_div_two_mem_angles_c8 :
    Real.pi / 2 ∈ collectAngles pXC8 360 (segmentPoints (borderSegments 0 0)) := by
  have hpt : (⟨0 + GAME_WIDTH, 0 + GAME_HEIGHT⟩ : Pt) ∈
      segmentPoints (borderSegments 0 0) := by
    unfold segmentPoints borderSegments
    simp
  have h0 := mem_collectAngles_plus pXC8 360 _ _ hpt
  dsimp only at h0
  rw [atan2_BR_c8, show Real.pi / 2 - 0.00001 + 0.00001 = Real.pi / 2 by ring] at h0
  exact h0

/-- C8 amended: for an origin strictly inside the viewport rectangle (the
level argument contributes no occluding segments: the polygon/tile block
of `getSightPolygon` is commented out in the source, so only the four
viewport borders occlude), the sight polygon (i) has every vertex with
genuine real coordinates on the viewport boundary, (ii) gives every
vertex an angle that is a viewport-corner angle or a corner angle
perturbed by `±0.00001`, and (iii) contains each of the four viewport
corners exactly, at its own corner angle.  The output is *not* only the
four corners: the `±0.00001` perturbed rays contribute further boundary
vertices, and a perturbed ray that leaves exactly vertically produces a
vertex with NaN coordinates (see the counterexample). -/
theorem c8_amended (pX pY xV yV : ℝ) (level : TileLevel)
    (hx1 : xV < pX) (hx2 : pX < xV + GAME_WIDTH)
    (hy1 : yV < pY) (hy2 : pY < yV + GAME_HEIGHT) :
    (∀ v ∈ getSightPolygon pX pY xV yV level, ∀ x y : ℝ,
      v.x = JSNum.num x → v.y = JSNum.num y → onViewportBoundary xV yV x y) ∧
    (∀ v ∈ getSightPolygon pX pY xV yV level, ∃ c ∈ cornersOf xV yV,
      v.angle = atan2 (c.y - pY) (c.x - pX) - 0.00001 ∨
      v.angle = atan2 (c.y - pY) (c.x - pX) ∨
      v.angle = atan2 (c.y - pY) (c.x - pX) + 0.00001) ∧
    (∀ c ∈ cornersOf xV yV, ∃ v ∈ getSightPolygon pX pY xV yV level,
      v.x = JSNum.num c.x ∧ v.y = JSNum.num c.y ∧
      v.angle = atan2 (c.y - pY) (c.x - pX)) := by
  have helim : ∀ v ∈ getSightPolygon pX pY xV yV level,
      ∃ θ ∈ collectAngles pX pY (segmentPoints (borderSegments xV yV)),
        castRay pX pY (borderSegments xV yV) θ = some v := by
    intro v hv
    unfold getSightPolygon at hv
    dsimp only at hv
    rw [List.mem_mergeSort, List.mem_filterMap] at hv
    exact hv
  have hintro : ∀ (v : SightVertex) (θ : ℝ),
      θ ∈ collectAngles pX pY (segmentPoints (borderSegments xV yV)) →
      castRay pX pY (borderSegments xV yV) θ = some v →
      v ∈ getSightPolygon pX pY xV yV level := by
    intro v θ hθ hcast
    unfold getSightPolygon
    dsimp only
    rw [List.mem_mergeSort, List.mem_filterMap]
    exact ⟨θ, hθ, hcast⟩
  refine ⟨?_, ?_, ?_⟩
  · intro v hv x y hx hy
    obtain ⟨θ, hθmem, hcast⟩ := helim v hv
    exact castRay_on_boundary pX pY xV yV θ v hcast x y hx hy
  · intro v hv
    obtain ⟨θ, hθmem, hcast⟩ := helim v hv
    have hang : v.angle = θ := by
      unfold castRay at hcast
      dsimp only at hcast
      rw [Option.map_eq_some'] at hcast
      obtain ⟨h, _, hveq⟩ := hcast
      subst hveq
      rfl
    obtain ⟨pt, hpt, hforms⟩ := collectAngles_elim pX pY _ θ hθmem
    exact ⟨pt, segmentPoints_borders_sub xV yV pt hpt, by rw [hang]; exact hforms⟩
  · intro c hc
    unfold cornersOf at hc
    simp only [List.mem_cons, List.not_mem_nil, or_false] at hc
    rcases hc with rfl | rfl | rfl | rfl
    · refine ⟨_, hintro _ _ (mem_collectAngles pX pY _ ⟨xV, yV⟩ ?_)
        (castRay_corner_TL pX pY xV yV hx1 hx2 hy1 hy2), rfl, rfl, rfl⟩
      unfold segmentPoints borderSegments
      simp
    · refine ⟨_, hintro _ _ (mem_collectAngles pX pY _ ⟨xV + GAME_WIDTH, yV⟩ ?_)
        (castRay_corner_TR pX pY xV yV hx1 hx2 hy1 hy2), rfl, rfl, rfl⟩
      unfold segmentPoints borderSegments
      simp
    · refine ⟨_, hintro _ _
        (mem_collectAngles pX pY _ ⟨xV + GAME_WIDTH, yV + GAME_HEIGHT⟩ ?_)
        (castRay_corner_BR pX pY xV yV hx1 hx2 hy1 hy2), rfl, rfl, rfl⟩
      unfold segmentPoints borderSegments
      simp
    · refine ⟨_, hintro _ _ (mem_collectAngles pX pY _ ⟨xV, yV + GAME_HEIGHT⟩ ?_)
        (castRay_corner_BL pX pY xV yV hx1 hx2 hy1 hy2), rfl, rfl, rfl⟩
      unfold segmentPoints borderSegments
      simp

/-- Witness for the amended C8 at the concrete origin (640, 360) strictly
inside the (0, 0) viewport over the empty lobby level. -/
theorem c8_amended_witness :
    ((0:ℝ) < 640 ∧ (640:ℝ) < 0 + GAME_WIDTH ∧ (0:ℝ) < 360 ∧
      (360:ℝ) < 0 + GAME_HEIGHT) ∧
    ((∀ v ∈ getSightPolygon 640 360 0 0 lvlEmpty, ∀ x y : ℝ,
      v.x = JSNum.num x → v.y = JSNum.num y → onViewportBoundary 0 0 x y) ∧
    (∀ v ∈ getSightPolygon 640 360 0 0 lvlEmpty, ∃ c ∈ cornersOf 0 0,
      v.angle = atan2 (c.y - 360) (c.x - 640) - 0.00001 ∨
      v.angle = atan2 (c.y - 360) (c.x - 640) ∨
      v.angle = atan2 (c.y - 360) (c.x - 640) + 0.00001) ∧
    (∀ c ∈ cornersOf 0 0, ∃ v ∈ getSightPolygon 640 360 0 0 lvlEmpty,
      v.x = JSNum.num c.x ∧ v.y = JSNum.num c.y ∧
      v.angle = atan2 (c.y - 360) (c.x - 640))) :=
  ⟨⟨by norm_num, by norm_num [GAME_WIDTH], by norm_num, by norm_num [GAME_HEIGHT]⟩,
    c8_amended 640 360 0 0 lvlEmpty (by norm_num) (by norm_num [GAME_WIDTH])
      (by norm_num) (by norm_num [GAME_HEIGHT])⟩

/-- C8 counterexample: the origin `(pXC8, 360)` with
`pXC8 = 1280 - 360·tan(0.00001)` is strictly inside the (0, 0) viewport,
yet the sight polygon is not the four viewport corners up to
ordering/epsilon: the bottom-right corner (1280, 720) has angle exactly
`π/2 - 0.00001`, so its `+0.00001` perturbed ray is exactly vertical;
that ray's intersection with the top border divides by `r_dx = 0`,
`T1 = 0/0 = NaN` slips through the NaN-false comparisons, and the output
contains a vertex whose coordinates are NaN — not a boundary point (or
any point) at all. -/
theorem c8_counterexample :
    ((0:ℝ) < pXC8 ∧ pXC8 < 0 + GAME_WIDTH ∧ (0:ℝ) < 360 ∧
      (360:ℝ) < 0 + GAME_HEIGHT) ∧
    ¬ (∀ v ∈ getSightPolygon pXC8 360 0 0 lvlEmpty,
        ∃ x y : ℝ, v.x = JSNum.num x ∧ v.y = JSNum.num y ∧
          onViewportBoundary 0 0 x y) := by
  obtain ⟨hlo, hhi⟩ := pXC8_bounds
  refine ⟨⟨by linarith, by norm_num [GAME_WIDTH]; linarith, by norm_num,
    by norm_num [GAME_HEIGHT]⟩, ?_⟩
  intro hclaim
  have hmem : (⟨JSNum.nan, JSNum.nan, JSNum.nan, Real.pi / 2⟩ : SightVertex) ∈
      getSightPolygon pXC8 360 0 0 lvlEmpty := by
    unfold getSightPolygon
    dsimp only
    rw [List.mem_mergeSort, List.mem_filterMap]
    exact ⟨Real.pi / 2, pi_div_two_mem_angles_c8, castRay_pi_div_two_c8⟩
  obtain ⟨x, y, hx, _, _⟩ := hclaim _ hmem
  exact JSNum.num_ne_nan x hx.symm
